import Mathlib

/-!
Verification development for the centsible price tracker
(`src/server/server.js`).  The JavaScript source is shallowly embedded:

* JS numbers that arise from parsing decimal text are represented exactly
  by `Dec` (an integer mantissa over a power-of-ten denominator); value
  equality of JS numbers is `Dec.veq`.  Floating-point rounding is not
  modelled: every number the price pipeline manipulates is an exact
  decimal, and the claims under study do not depend on binary rounding.
* JS strings are `String`, manipulated through `List Char` helpers that
  mirror the exact `replace` / `split` / `lastIndexOf` behaviour used by
  the source.
* The DOM is not modelled.  Wherever `parseHtml` reads from the document
  (selector hits, body text fragments, parsed JSON-LD scripts) the
  embedding takes the extracted values as explicit inputs, covering every
  value the DOM could produce.
* Timestamps (stored as ISO strings in the source and compared via
  `Date.getTime`) are modelled directly as integer milliseconds.
* `dns.lookup`, `new URL` and the HTML fetch are external effects; their
  results are inputs of the corresponding model functions.
-/

/-- JS whitespace class `\s` (the code points relevant to this code base). -/
def jsWhitespace (c : Char) : Bool :=
  c = ' ' || c = '\t' || c = '\n' || c = '\r' || c = '\u000B' || c = '\u000C' ||
  c = '\u00A0' || c = '\u1680' || ('\u2000' <= c && c <= '\u200A') ||
  c = '\u2028' || c = '\u2029' || c = '\u202F' || c = '\u205F' ||
  c = '\u3000' || c = '\uFEFF'

/-- Substring test, mirroring JS `String.prototype.includes`. -/
def containsSub (hay needle : List Char) : Bool :=
  (List.range (hay.length + 1)).any (fun i => needle.isPrefixOf (hay.drop i))

/-- First-occurrence single-character replacement, mirroring JS
`s.replace(c, r)` with a plain one-character string pattern. -/
def replaceFirst (cs : List Char) (tgt rep : Char) : List Char :=
  match cs with
  | [] => []
  | c :: rest => if c = tgt then rep :: rest else c :: replaceFirst rest tgt rep

/-- Index of the last occurrence of `c`, mirroring JS `lastIndexOf`
(`-1` when absent). -/
def lastIdxOf (cs : List Char) (c : Char) : Int :=
  cs.enum.foldl (fun acc p => if p.2 = c then (p.1 : Int) else acc) (-1)

/-- Split on a separator character, mirroring JS `String.prototype.split`
with a one-character separator (keeps empty groups). -/
def splitOnChar (sep : Char) : List Char → List (List Char)
  | [] => [[]]
  | c :: rest =>
    match splitOnChar sep rest with
    | [] => [[]]
    | g :: gs => if c = sep then [] :: g :: gs else (c :: g) :: gs

/-- Lowercasing used for the ASCII selector/keyword matching of the source
(mirrors `toLowerCase` on the ASCII range, which is all the source needs). -/
def toLowerL (cs : List Char) : List Char := cs.map Char.toLower

/-- Uppercasing used by `detectCurrencyFromText` (ASCII range). -/
def toUpperL (cs : List Char) : List Char := cs.map Char.toUpper

/-- Value of a digit string, most significant first. -/
def digitsVal (cs : List Char) : Nat :=
  cs.foldl (fun a c => a * 10 + (c.toNat - 48)) 0

/-- Decimal digits of a natural number, most significant first (fuel-based
so that the kernel can evaluate it). -/
def natToDigitsAux : Nat → Nat → List Char → List Char
  | 0, _, acc => acc
  | fuel + 1, n, acc =>
    if n < 10 then Char.ofNat (48 + n) :: acc
    else natToDigitsAux fuel (n / 10) (Char.ofNat (48 + n % 10) :: acc)

/-- Decimal rendering of a natural number. -/
def natToDigits (n : Nat) : List Char := natToDigitsAux (n + 1) n []

/-- Exact decimal number `num / 10 ^ exp`: the embedding of the JS numbers
produced by `parseFloat` on decimal text. -/
structure Dec where
  num : Int
  exp : Nat
deriving DecidableEq, Repr

/-- Value equality of two exact decimals (JS `===` on the numbers). -/
def Dec.veq (a b : Dec) : Bool := a.num * 10 ^ b.exp == b.num * 10 ^ a.exp

/-- Value strict order on exact decimals (JS `<` on the numbers). -/
def Dec.vlt (a b : Dec) : Bool := a.num * 10 ^ b.exp < b.num * 10 ^ a.exp

/-- Strip common powers of ten so that the decimal is in the canonical form
that JS `Number.prototype.toString` prints. -/
def canonSteps : Int → Nat → Dec
  | m, 0 => ⟨m, 0⟩
  | m, e + 1 => if m % 10 = 0 then canonSteps (m / 10) e else ⟨m, e + 1⟩

/-- Canonical form of an exact decimal. -/
def Dec.canon (d : Dec) : Dec := canonSteps d.num d.exp

/-- Decimal rendering of an already canonical mantissa/exponent pair:
digits of `m`, left-padded to at least `e + 1` digits, with a point before
the last `e` digits. -/
def renderCanon (m : Int) (e : Nat) : List Char :=
  let ds := natToDigits m.natAbs
  let ds := List.replicate (e + 1 - ds.length) '0' ++ ds
  let whole := ds.take (ds.length - e)
  let frac := ds.drop (ds.length - e)
  let body := if e = 0 then whole else whole ++ '.' :: frac
  if m < 0 then '-' :: body else body

/-- Rendering of an exact decimal, mirroring JS `String(n)` for the plain
decimal range (the JS exponent notation for very large/small magnitudes is
not modelled; it does not affect the claims, which reparse the rendering). -/
def renderDec (d : Dec) : String :=
  let c := d.canon
  ⟨renderCanon c.num c.exp⟩

/-- Exponent part of `parseFloat`: `[eE][+-]?digits`, ignored when no digit
follows (as JS does). -/
def parseExpPart (cs : List Char) : Int :=
  let (sign, cs) :=
    match cs with
    | '-' :: rest => ((-1 : Int), rest)
    | '+' :: rest => ((1 : Int), rest)
    | _ => ((1 : Int), cs)
  let ds := cs.takeWhile Char.isDigit
  if ds.isEmpty then 0 else sign * (digitsVal ds : Int)

/-- Embedding of JS `parseFloat` on the decimal fragment it accepts:
optional sign, digits with at most one point, optional exponent; longest
numeric prefix wins, anything after it is ignored.  `none` stands for the
cases where the source's `Number.isFinite` guard then rejects the value
(`NaN` from no numeric prefix, or an `Infinity` literal). -/
def parseFloatDec (s : String) : Option Dec :=
  let cs := s.data.dropWhile jsWhitespace
  let (sign, cs) :=
    match cs with
    | '-' :: rest => ((-1 : Int), rest)
    | '+' :: rest => ((1 : Int), rest)
    | _ => ((1 : Int), cs)
  if "Infinity".data.isPrefixOf cs then none
  else
    let ip := cs.takeWhile Char.isDigit
    let r1 := cs.dropWhile Char.isDigit
    let (fp, r2) :=
      match r1 with
      | '.' :: rest => (rest.takeWhile Char.isDigit, rest.dropWhile Char.isDigit)
      | _ => ([], r1)
    if ip.isEmpty && fp.isEmpty then none
    else
      let mant : Int := sign * (digitsVal (ip ++ fp) : Int)
      let e : Int :=
        match r2 with
        | c :: rest => if c = 'e' || c = 'E' then parseExpPart rest else 0
        | [] => 0
      let t : Int := e - (fp.length : Int)
      if 0 ≤ t then some ⟨mant * 10 ^ t.toNat, 0⟩ else some ⟨mant, (-t).toNat⟩

/-- The `/,[0-9]{2}$/` test of `normalizePriceString`. -/
def endsCommaTwoDigits (cs : List Char) : Bool :=
  match cs.reverse with
  | d1 :: d2 :: c :: _ => d1.isDigit && d2.isDigit && c = ','
  | _ => false

/-- Embedding of `normalizePriceString` (server.js:891-915): whitespace is
stripped, the dot/comma separators are resolved exactly as in the source,
and the result is parsed; `none` is the source's `null`. -/
def normalizePriceString (rawNum : String) (currencyHint : String) : Option Dec :=
  let s := rawNum.data.filter (fun c => !jsWhitespace c)
  if s.isEmpty then none
  else
    let turkishLike := currencyHint = "TRY"
    let s1 :=
      if s.contains '.' && s.contains ',' then
        if lastIdxOf s ',' > lastIdxOf s '.' then
          replaceFirst (s.filter (· ≠ '.')) ',' '.'
        else s.filter (· ≠ ',')
      else if s.contains ',' then
        if turkishLike || endsCommaTwoDigits s then replaceFirst s ',' '.'
        else s.filter (· ≠ ',')
      else if s.contains '.' then
        if turkishLike && ((splitOnChar '.' s).getLast?.map List.length = some 3) then
          s.filter (· ≠ '.')
        else s
      else s
    parseFloatDec ⟨s1⟩

/-- The decimal-separator decision of the specification's number
normalization rules, stated as the spec states them: which character (if
any) acts as the decimal separator.  This definition follows the wording
of the spec, to be compared against `normalizePriceString` from the
source. -/
inductive SepChoice where
  | commaDecimal
  | dotDecimal
  | thousandsOnly
deriving DecidableEq, Repr

/-- Rule selection, clause by clause from the spec: with both separators
the later one is decimal; with only a comma it is decimal iff the currency
is Turkish-like or exactly two digits trail it; with only a dot it is
thousands iff the currency is Turkish-like and the final group has three
digits, else decimal. -/
def specSepChoice (s : List Char) (turkishLike : Bool) : SepChoice :=
  if s.contains '.' && s.contains ',' then
    if lastIdxOf s ',' > lastIdxOf s '.' then .commaDecimal else .dotDecimal
  else if s.contains ',' then
    if turkishLike || endsCommaTwoDigits s then .commaDecimal else .thousandsOnly
  else if s.contains '.' then
    if turkishLike && ((splitOnChar '.' s).getLast?.map List.length = some 3) then
      .thousandsOnly
    else .dotDecimal
  else .thousandsOnly

/-- Apply a separator decision: strip the other separator character as
thousands and turn the decimal separator (first occurrence) into a dot;
with no decimal separator both separator characters are stripped. -/
def specApplySep : SepChoice → List Char → List Char
  | .commaDecimal, s => replaceFirst (s.filter (· ≠ '.')) ',' '.'
  | .dotDecimal, s => s.filter (· ≠ ',')
  | .thousandsOnly, s => (s.filter (· ≠ '.')).filter (· ≠ ',')

/-- Number normalization as worded by the spec (rule selection followed by
the corresponding transformation, then the finiteness check). -/
def normalizePriceSpec (rawNum : String) (currencyHint : String) : Option Dec :=
  let s := rawNum.data.filter (fun c => !jsWhitespace c)
  if s.isEmpty then none
  else parseFloatDec ⟨specApplySep (specSepChoice s (currencyHint = "TRY")) s⟩

/-- Is `c` an ASCII uppercase letter (the class `[A-Z]` of the currency
regexes, applied to uppercased text). -/
def isUpperAlpha (c : Char) : Bool := 'A' ≤ c && c ≤ 'Z'

/-- Occurrence of `tok` bounded by non-`[A-Z]` characters (or the ends of
the string): the `(^|[^A-Z])TOK([^A-Z]|$)` pattern used by
`detectCurrencyFromText`, scanned over an uppercased text. -/
def tokenNoAlphaAux (prev : Option Char) (tok : List Char) : List Char → Bool
  | [] => tok.isEmpty && prev.all (fun c => !isUpperAlpha c)
  | c :: rest =>
    (tok.isPrefixOf (c :: rest) && prev.all (fun b => !isUpperAlpha b) &&
      (match (c :: rest).drop tok.length with
       | [] => true
       | b :: _ => !isUpperAlpha b)) ||
    tokenNoAlphaAux (some c) tok rest

/-- Boundary-checked token search over a whole string. -/
def tokenNoAlpha (cs tok : List Char) : Bool := tokenNoAlphaAux none tok cs

/-- Embedding of `detectCurrencyFromText` (server.js:429-441): symbol and
word-bounded code scan over the uppercased text, falling back to the
host-preferred currency. -/
def detectCurrencyFromText (text : String) (fallback : String) : String :=
  let t := toUpperL text.data
  if t.contains '₺' || tokenNoAlpha t "TRY".data || tokenNoAlpha t "TL".data then "TRY"
  else if t.contains '€' || tokenNoAlpha t "EUR".data then "EUR"
  else if t.contains '£' || tokenNoAlpha t "GBP".data then "GBP"
  else if tokenNoAlpha t "JPY".data || t.contains '¥' then "JPY"
  else if tokenNoAlpha t "CAD".data then "CAD"
  else if tokenNoAlpha t "AUD".data then "AUD"
  else if tokenNoAlpha t "CHF".data then "CHF"
  else if tokenNoAlpha t "CNY".data || t.contains '¥' then "CNY"
  else if t.contains '$' || tokenNoAlpha t "USD".data then "USD"
  else fallback

/-- A separator-plus-three-digits group `[.,\s][0-9]{3}` of the numeric
regex. -/
def sepGroup3 (cs : List Char) : Option (List Char × List Char) :=
  match cs with
  | s :: d1 :: d2 :: d3 :: rest =>
    if (s = '.' || s = ',' || jsWhitespace s) && d1.isDigit && d2.isDigit && d3.isDigit
    then some ([s, d1, d2, d3], rest) else none
  | _ => none

/-- The mandatory tail `[.,][0-9]{1,2}` of the first regex alternative
(greedy on the digits). -/
def decTail12 (cs : List Char) : Option (List Char × List Char) :=
  match cs with
  | s :: d1 :: d2 :: rest =>
    if (s = '.' || s = ',') && d1.isDigit then
      if d2.isDigit then some ([s, d1, d2], rest) else some ([s, d1], d2 :: rest)
    else none
  | [s, d1] => if (s = '.' || s = ',') && d1.isDigit then some ([s, d1], []) else none
  | _ => none

/-- Greedy star over `sepGroup3` followed by `decTail12`, with the same
backtracking the regex engine performs (try one more group, else the
tail).  Fuel-based: each group consumes four characters, so a fuel of the
input length always suffices. -/
def starThenTailAux : Nat → List Char → Option (List Char × List Char)
  | 0, _ => none
  | fuel + 1, cs =>
    match sepGroup3 cs with
    | some (g, r) =>
      match starThenTailAux fuel r with
      | some (m, r2) => some (g ++ m, r2)
      | none => decTail12 cs
    | none => decTail12 cs

/-- Star-then-tail with sufficient fuel. -/
def starThenTail (cs : List Char) : Option (List Char × List Char) :=
  starThenTailAux (cs.length + 1) cs

/-- First alternative `[0-9]{1,3}([.,\s][0-9]{3})*[.,][0-9]{1,2}`, taking
the leading digits greedily (3, then 2, then 1) with backtracking. -/
def matchAltOne (cs : List Char) : Option (List Char × List Char) :=
  let tryLen : Nat → Option (List Char × List Char) := fun n =>
    let ds := (cs.take n)
    if ds.length = n && ds.all Char.isDigit then
      match starThenTail (cs.drop n) with
      | some (m, r) => some (ds ++ m, r)
      | none => none
    else none
  match tryLen 3 with
  | some r => some r
  | none =>
    match tryLen 2 with
    | some r => some r
    | none => tryLen 1

/-- Second alternative `[0-9]+([.,][0-9]{1,2})?`: all available digits,
then an optional decimal tail. -/
def matchAltTwo (cs : List Char) : Option (List Char × List Char) :=
  let ds := cs.takeWhile Char.isDigit
  if ds.isEmpty then none
  else
    let rest := cs.dropWhile Char.isDigit
    match decTail12 rest with
    | some (m, r) => some (ds ++ m, r)
    | none => some (ds, rest)

/-- One regex match attempt at the current position (first alternative
preferred, as the engine tries alternatives left to right). -/
def matchNumHere (cs : List Char) : Option (List Char × List Char) :=
  match matchAltOne cs with
  | some r => some r
  | none => matchAltTwo cs

/-- Global scan of the numeric regex over the text (fuel = remaining
length; every step consumes at least one character). -/
def scanNumsAux : Nat → List Char → List (List Char)
  | 0, _ => []
  | _, [] => []
  | fuel + 1, c :: rest =>
    match matchNumHere (c :: rest) with
    | some (m, r) => m :: scanNumsAux fuel r
    | none => scanNumsAux fuel rest

/-- Embedding of `extractNumericCandidates` (server.js:917-921): all
matches of the numeric regex, first six. -/
def extractNumericCandidates (text : String) : List String :=
  ((scanNumsAux text.data.length text.data).take 6).map (fun cs => ⟨cs⟩)

/-- Word characters `\w` of the JS regex word boundary `\b`. -/
def isWordChar (c : Char) : Bool :=
  ('a' ≤ c && c ≤ 'z') || ('A' ≤ c && c ≤ 'Z') || c.isDigit || c = '_'

/-- Occurrence of `tok` with `\b` boundaries on both sides, scanned over a
lowercased text with a lowercase token (the regex is case-insensitive). -/
def wordTokenAux (prev : Option Char) (tok : List Char) : List Char → Bool
  | [] => tok.isEmpty && prev.all (fun c => !isWordChar c)
  | c :: rest =>
    (tok.isPrefixOf (c :: rest) && prev.all (fun b => !isWordChar b) &&
      (match (c :: rest).drop tok.length with
       | [] => true
       | b :: _ => !isWordChar b)) ||
    wordTokenAux (some c) tok rest

/-- Word-bounded token search over a whole string. -/
def wordToken (cs tok : List Char) : Bool := wordTokenAux none tok cs

/-- The explicit-currency-marker regex of `buildCandidate`
(server.js:937): currency symbols, or a word-bounded ISO code or `TL`. -/
def hasCurrencyMarker (rawText : List Char) : Bool :=
  let lc := toLowerL rawText
  rawText.contains '₺' || rawText.contains '€' || rawText.contains '£' ||
  rawText.contains '$' ||
  ["try", "usd", "eur", "gbp", "jpy", "cad", "aud", "chf", "cny", "tl"].any
    (fun tok => wordToken lc tok.data)

/-- Currencies of the `SUPPORTED_CURRENCIES` set (server.js:77-80). -/
def SUPPORTED_CURRENCIES : List String :=
  ["USD", "EUR", "GBP", "TRY", "JPY", "CAD", "AUD", "CHF", "CNY",
   "SEK", "NOK", "DKK", "PLN", "CZK", "HUF", "RON"]

/-- Leading and trailing whitespace removal (JS `trim`). -/
def trimWs (cs : List Char) : List Char :=
  ((cs.dropWhile jsWhitespace).reverse.dropWhile jsWhitespace).reverse

/-- Whitespace-run collapsing (JS `replace(/\s+/g, ' ')`); the flag records
whether the previous character was part of a whitespace run. -/
def collapseWsAux : Bool → List Char → List Char
  | _, [] => []
  | inWs, c :: rest =>
    if jsWhitespace c then
      if inWs then collapseWsAux true rest else ' ' :: collapseWsAux true rest
    else c :: collapseWsAux false rest

/-- Collapse whitespace runs to single spaces. -/
def collapseWs (cs : List Char) : List Char := collapseWsAux false cs

/-- A price candidate (spec glossary: price reading with provenance and
score). -/
structure Cand where
  price : Dec
  currency : String
  selector : String
  source : String
  score : Int
  snippet : String
deriving DecidableEq, Repr

/-- Any member of `toks` occurs as a substring of `cs`. -/
def containsAnySub (cs : List Char) (toks : List String) : Bool :=
  toks.any (fun t => containsSub cs t.data)

/-- Embedding of `buildCandidate` (server.js:929-966): trims, detects the
currency, extracts the numeric substrings, applies the rejection rules,
normalizes the first number and scores the result. -/
def buildCandidate (text : String) (selector : String) (source : String)
    (preferredCurrency : String) (scoreBase : Int) : Option Cand :=
  let rawText := trimWs text.data
  if rawText.isEmpty then none
  else if rawText.length > 220 then none
  else
    let currency := detectCurrencyFromText ⟨rawText⟩ preferredCurrency
    let rawNumbers := extractNumericCandidates ⟨rawText⟩
    if rawNumbers.isEmpty then none
    else
      let explicitCur := hasCurrencyMarker rawText
      if rawNumbers.length > 2 && !explicitCur then none
      else if source = "text" && !explicitCur &&
          !(containsAnySub (toLowerL rawText)
            ["price", "fiyat", "sale", "deal", "discount", "ourprice"]) then none
      else
        match normalizePriceString (rawNumbers.headD "") currency with
        | none => none
        | some price =>
          if !(Dec.vlt ⟨0, 0⟩ price) then none
          else
            let lc := toLowerL rawText
            let sl := toLowerL selector.data
            let score := scoreBase
            let score := score +
              (if containsAnySub lc
                  ["price", "fiyat", "sale", "deal", "current", "ourprice", "discount"]
               then 25 else 0)
            let score := score -
              (if containsAnySub lc
                  ["shipping", "delivery", "kargo", "installment", "taksit",
                   "monthly", "month", "save"]
               then 25 else 0)
            let score := score -
              (if containsAnySub lc
                  ["availability", "website", "url", "vat", "date", "mm/dd/yyyy"]
               then 40 else 0)
            let score := score -
              (if containsAnySub lc
                  ["width", "height", "margin", "padding", "font", "button",
                   "registry", "spacing"]
               then 45 else 0)
            let score := score +
              (if selector ≠ "" && containsAnySub sl
                  ["price", "fiyat", "ourprice", "deal", "sale", "discount"]
               then 18 else 0)
            let score := score -
              (if selector ≠ "" && containsAnySub sl
                  ["old", "strike", "cross", "was", "list", "compare"]
               then 20 else 0)
            let score := score -
              (if selector ≠ "" && (containsSub selector.data "[class*=\"price\"]".data ||
                  containsSub selector.data "[id*=\"price\"]".data)
               then 20 else 0)
            let score := score -
              (if preferredCurrency ≠ "" && currency ≠ preferredCurrency &&
                  source ≠ "json-ld"
               then 12 else 0)
            let score := score -
              (if Dec.vlt price ⟨2, 0⟩ && source ≠ "json-ld" then 50 else 0)
            let score := score + (if SUPPORTED_CURRENCIES.contains currency then 8 else 0)
            let score := score +
              (if Dec.vlt ⟨0, 0⟩ price && Dec.vlt price ⟨2000000, 0⟩ then 5 else 0)
            some { price := price, currency := currency, selector := selector,
                   source := source, score := score,
                   snippet := ⟨(collapseWs rawText).take 140⟩ }

/-- Parsed JSON values, the output of `JSON.parse` on a script body. -/
inductive JsonVal where
  | null
  | bool (b : Bool)
  | num (d : Dec)
  | str (s : String)
  | arr (elems : List JsonVal)
  | obj (fields : List (String × JsonVal))

/-- JS truthiness of a parsed JSON value. -/
def jsTruthy : JsonVal → Bool
  | .null => false
  | .bool b => b
  | .num d => d.num ≠ 0
  | .str s => s ≠ ""
  | .arr _ => true
  | .obj _ => true

/-- Field lookup on an object (`JSON.parse` output carries at most one
entry per key). -/
def jsonGet (fields : List (String × JsonVal)) (key : String) : Option JsonVal :=
  (fields.find? (fun p => p.1 = key)).map Prod.snd

/-- Property access on a value: only objects have string-keyed fields. -/
def jsonField (v : JsonVal) (key : String) : Option JsonVal :=
  match v with
  | .obj fs => jsonGet fs key
  | _ => none

/-- Nullish-aware access: `undefined` and `null` both fall through the
`??` chain of the source. -/
def jsonFieldNN (v : JsonVal) (key : String) : Option JsonVal :=
  match jsonField v key with
  | some .null => none
  | r => r

mutual

/-- JS `String(v)` on a parsed JSON value (arrays join their members with
commas, nested nulls print as empty, objects print as `[object Object]`). -/
def jsonToString : JsonVal → String
  | .null => "null"
  | .bool true => "true"
  | .bool false => "false"
  | .num d => renderDec d
  | .str s => s
  | .arr xs => String.intercalate "," (jsonToStringArr xs)
  | .obj _ => "[object Object]"

/-- Member strings of an array under JS `Array.prototype.toString`. -/
def jsonToStringArr : List JsonVal → List String
  | [] => []
  | .null :: rest => "" :: jsonToStringArr rest
  | v :: rest => jsonToString v :: jsonToStringArr rest

end

/-- An `offers` field is iterated as an array, a single offer otherwise. -/
def offersList : JsonVal → List JsonVal
  | .arr xs => xs
  | v => [v]

/-- One offer of a JSON-LD `offers` field, as `extractFromJsonLd` reads
it (server.js:1026-1041): price from `price | lowPrice | highPrice`,
currency from `priceCurrency` with fallbacks, score fixed at 95. -/
def offerCand (preferredCurrency : String) (offer : JsonVal) : Option Cand :=
  let isObjLike := match offer with
    | .arr _ => true
    | .obj _ => true
    | _ => false
  if !(jsTruthy offer && isObjLike) then none
  else
    let priceValue :=
      match jsonFieldNN offer "price" with
      | some v => some v
      | none =>
        match jsonFieldNN offer "lowPrice" with
        | some v => some v
        | none => jsonFieldNN offer "highPrice"
    let currency : String :=
      ⟨toUpperL (match jsonField offer "priceCurrency" with
        | some v =>
          if jsTruthy v then (jsonToString v).data
          else if preferredCurrency ≠ "" then preferredCurrency.data else "USD".data
        | none =>
          if preferredCurrency ≠ "" then preferredCurrency.data else "USD".data)⟩
    let priceStr := match priceValue with
      | some v => jsonToString v
      | none => ""
    match normalizePriceString priceStr currency with
    | none => none
    | some price =>
      if Dec.vlt ⟨0, 0⟩ price then
        some { price := price,
               currency := if SUPPORTED_CURRENCIES.contains currency then currency
                           else preferredCurrency,
               selector := "script[type=\"application/ld+json\"]",
               source := "json-ld", score := 95,
               snippet := priceStr ++ " " ++ currency }
      else none

/-- Candidates of the offers attached directly to one object node. -/
def offersCands (preferredCurrency : String) (fs : List (String × JsonVal)) : List Cand :=
  match jsonGet fs "offers" with
  | some ov =>
    if jsTruthy ov then (offersList ov).filterMap (offerCand preferredCurrency)
    else []
  | none => []

mutual

/-- Depth-first traversal of a parsed JSON-LD document in the order of the
source's explicit stack (server.js:1014-1047): a popped object first emits
the candidates of its own `offers` field, then its children are visited in
reverse key/element order, each subtree fully before its left sibling.
Children that are not objects or arrays yield no candidates, so the
source's push-filter can recurse into every child uniformly. -/
def ldCands (preferredCurrency : String) : JsonVal → List Cand
  | .obj fs => offersCands preferredCurrency fs ++ ldFields preferredCurrency fs
  | .arr xs => ldElems preferredCurrency xs
  | _ => []

/-- Candidates of a list of array elements, visited in reverse order. -/
def ldElems (preferredCurrency : String) : List JsonVal → List Cand
  | [] => []
  | v :: rest => ldElems preferredCurrency rest ++ ldCands preferredCurrency v

/-- Candidates of the field values of an object, visited in reverse key
order. -/
def ldFields (preferredCurrency : String) : List (String × JsonVal) → List Cand
  | [] => []
  | (_, v) :: rest => ldFields preferredCurrency rest ++ ldCands preferredCurrency v

end

/-- Embedding of `extractFromJsonLd` (server.js:1002-1050): the input list
holds the successfully parsed bodies of the `ld+json` scripts in document
order (scripts with empty bodies or parse errors contribute nothing). -/
def extractFromJsonLd (scripts : List JsonVal) (preferredCurrency : String) : List Cand :=
  scripts.flatMap (ldCands preferredCurrency)

/-- Dedup key equality: the source keys its map on the string
`selector|price|currency`, so two candidates collide exactly when the
selector, the printed (canonical) price and the currency agree. -/
def dedupKeyEq (a b : Cand) : Bool :=
  a.selector = b.selector && a.price.canon = b.price.canon && a.currency = b.currency

/-- One step of the dedup fold: replace the existing entry of the same key
when the new score is strictly higher, append otherwise (JS `Map` keeps
first-insertion order on update). -/
def dedupInsert (acc : List Cand) (c : Cand) : List Cand :=
  if acc.any (dedupKeyEq c) then
    acc.map (fun x => if dedupKeyEq c x && c.score > x.score then c else x)
  else acc ++ [c]

/-- Stable insertion step for the descending-score sort: a candidate moves
ahead only of strictly lower scores, preserving the relative order of
ties exactly as the stable JS `Array.prototype.sort` does. -/
def insertByScore (c : Cand) : List Cand → List Cand
  | [] => [c]
  | x :: xs => if c.score > x.score then c :: x :: xs else x :: insertByScore c xs

/-- Embedding of `rankCandidates` (server.js:1074-1082): dedup by
`(selector, price, currency)` keeping the highest score, then a stable
sort by descending score. -/
def rankCandidates (candidates : List Cand) : List Cand :=
  (candidates.foldl dedupInsert []).foldl (fun acc c => insertByScore c acc) []

/-- Availability verdict, as returned by `detectAvailability`; the claims
under study treat the classifier's verdict as an input of `parseHtml`.
The classifier only ever produces integer confidences. -/
structure Availability where
  status : String
  confidence : Int
  reason : String
  source : Option String
deriving DecidableEq, Repr

/-- Embedding of `normalizeConfidence` (server.js:923-927) on the integer
confidences this code produces: clamp into `[0, 100]`. -/
def normalizeConfidence (value : Int) : Int :=
  max 0 (min 100 value)

/-- Embedding of `isAmazonTarget` (server.js:421-427) on the hostname the
URL parser produced. -/
def isAmazonHost (hostname : String) : Bool :=
  containsSub (toLowerL hostname.data) "amazon.".data

/-- Preferred-currency half of `getDomainHints` (server.js:398-414) on a
parsed (already lowercased) hostname. -/
def preferredCurrencyOf (hostname : String) : String :=
  let h := hostname.data
  if ".tr".data.isSuffixOf h ||
      ["trendyol", "hepsiburada", "n11", "boyner", "amazon.com.tr"].any
        (fun t => containsSub h t.data) then "TRY"
  else if containsSub h "amazon.de".data || ".de".data.isSuffixOf h then "EUR"
  else if containsSub h "amazon.co.uk".data || ".co.uk".data.isSuffixOf h then "GBP"
  else if containsSub h "amazon.jp".data || ".jp".data.isSuffixOf h then "JPY"
  else if containsSub h "amazon.ca".data || ".ca".data.isSuffixOf h then "CAD"
  else if containsSub h "amazon.com.au".data || ".com.au".data.isSuffixOf h then "AUD"
  else if containsSub h "amazon.com".data || ".com".data.isSuffixOf h then "USD"
  else "USD"

/-- The Amazon pre-ranking gate's selector test (server.js:1136-1140):
approved Amazon price selectors and the meta price selectors, matched as
substrings of the lowercased selector. -/
def amazonApprovedSelector (selector : String) : Bool :=
  let sel := toLowerL selector.data
  containsSub sel "#coreprice".data || containsSub sel "#priceblock_".data ||
  containsSub sel "#price_inside_buybox".data || containsSub sel "#apex_".data ||
  containsSub sel "twister-plus-price-data-price".data ||
  containsSub sel "meta[itemprop=\"price\"]".data ||
  containsSub sel "meta[property=\"og:price:amount\"]".data ||
  containsSub sel "meta[property=\"product:price:amount\"]".data

/-- Embedding of the Amazon pre-ranking gate (server.js:1134-1142): on
Amazon hosts a candidate survives only if it is custom-sourced or carries
an approved selector, and additionally its currency equals the
host-preferred currency. -/
def amazonScope (isAmazon : Bool) (preferredCurrency : String)
    (candidates : List Cand) : List Cand :=
  if isAmazon then
    (candidates.filter (fun c =>
        c.source = "custom" || amazonApprovedSelector c.selector)).filter
      (fun c => c.currency = preferredCurrency)
  else candidates

/-- Extraction result of `parseHtml` (the `debug` payload of the source is
omitted; no claim mentions it). -/
structure ExtractionResult where
  price : Option Dec
  currency : String
  confidence : Int
  selectorUsed : Option String
  source : Option String
  suggestions : List Cand
  availability : Availability
deriving DecidableEq, Repr

/-- The body-text pre-filter of the text heuristic (server.js:1122-1126):
compact fragments of 2 to 140 characters containing a price-ish token. -/
def priceLikeFragment (txt : String) : Option String :=
  let compact := trimWs (collapseWs txt.data)
  if compact.isEmpty || compact.length < 2 || compact.length > 140 then none
  else if containsAnySub (toLowerL compact)
      ["price", "fiyat", "discount", "sale", "deal", "ourprice",
       "₺", "€", "£", "$", "try", "usd", "eur", "gbp", "jpy", "cad", "aud",
       "chf", "cny"] then
    some ⟨compact⟩
  else none

/-- Embedding of `parseHtml` (server.js:1084-1201).  The DOM reads are
inputs: `scripts` are the parsed `ld+json` bodies, `rawCands` the output
of `extractFromRawPatterns` on the raw HTML, `customHits` and
`selectorHits` the `(selector, text)` pairs the custom probes and the
site/base selector walk produced (in document order, at most five
elements per selector as in `collectSelectorCandidates`), and `bodyTexts`
the texts of the first 1200 body descendants.  `availability` is the
classifier's verdict on the same document. -/
def parseHtml (scripts : List JsonVal) (rawCands : List Cand)
    (customSelector : Option String) (customHits : List (String × String))
    (selectorHits : List (String × String)) (bodyTexts : List String)
    (isAmazon : Bool) (preferredCurrency : String)
    (availability : Availability) : ExtractionResult :=
  let candidates := extractFromJsonLd scripts preferredCurrency
  let candidates := candidates ++ (if !isAmazon then rawCands else [])
  let candidates := candidates ++
    (match customSelector with
     | some s =>
       if s ≠ "" then
         customHits.filterMap (fun h => buildCandidate h.2 h.1 "custom" preferredCurrency 88)
       else []
     | none => [])
  let candidates := candidates ++
    selectorHits.filterMap (fun h => buildCandidate h.2 h.1 "selector" preferredCurrency 60)
  let candidates := candidates ++
    (if !isAmazon then
      ((bodyTexts.filterMap priceLikeFragment).take 120).filterMap
        (fun txt => buildCandidate txt "" "text" preferredCurrency 30)
     else [])
  let ranked := rankCandidates (amazonScope isAmazon preferredCurrency candidates)
  let best := ranked.head?
  let suggestions := ranked.take 5
  let shouldSuppress := isAmazon && availability.status = "out_of_stock" &&
    availability.confidence ≥ 80
  let noPriceConfidence :=
    if availability.confidence > 0 && availability.status = "out_of_stock" then
      availability.confidence
    else 0
  match best with
  | none =>
    { price := none, currency := preferredCurrency,
      confidence := normalizeConfidence noPriceConfidence,
      selectorUsed := none, source := none, suggestions := suggestions,
      availability := availability }
  | some b =>
    if shouldSuppress then
      { price := none, currency := preferredCurrency,
        confidence := normalizeConfidence noPriceConfidence,
        selectorUsed := none, source := none, suggestions := suggestions,
        availability := availability }
    else
      { price := some b.price,
        currency := if b.currency ≠ "" then b.currency else preferredCurrency,
        confidence := normalizeConfidence b.score,
        selectorUsed := if b.selector ≠ "" then some b.selector else none,
        source := if b.source ≠ "" then some b.source else none,
        suggestions := suggestions, availability := availability }

/-- Exact fractions with the four operations the scheduler layer needs.
JS numbers in this layer (prices, rates, configured thresholds) are
embedded as integer fractions; comparisons cross-multiply, so they are
exact and kernel-computable.  All values constructed by the model keep a
positive denominator. -/
structure Q where
  n : Int
  d : Int
deriving DecidableEq, Repr

/-- Embed an integer. -/
def Q.ofInt (i : Int) : Q := ⟨i, 1⟩

instance (n : Nat) : OfNat Q n := ⟨⟨Int.ofNat n, 1⟩⟩

/-- Value equality (JS `===` on numbers). -/
def Q.qeq (a b : Q) : Bool := a.n * b.d == b.n * a.d

/-- Value strict order (JS `<`), valid for positive denominators. -/
def Q.qlt (a b : Q) : Bool := a.n * b.d < b.n * a.d

/-- Value order (JS `<=`), valid for positive denominators. -/
def Q.qle (a b : Q) : Bool := a.n * b.d ≤ b.n * a.d

/-- Subtraction. -/
def Q.sub (a b : Q) : Q := ⟨a.n * b.d - b.n * a.d, a.d * b.d⟩

/-- Multiplication. -/
def Q.mul (a b : Q) : Q := ⟨a.n * b.n, a.d * b.d⟩

/-- Division, keeping the denominator positive (call sites guard against
zero divisors as the source does). -/
def Q.div (a b : Q) : Q :=
  let nn := a.n * b.d
  let dd := a.d * b.n
  if dd < 0 then ⟨-nn, -dd⟩ else ⟨nn, dd⟩

/-- JS `Math.max` on two numbers. -/
def Q.qmax (a b : Q) : Q := if Q.qlt a b then b else a

/-- JS `Math.min` on two numbers. -/
def Q.qmin (a b : Q) : Q := if Q.qlt b a then b else a

/-- JS `===` on number-or-null fields. -/
def optQEq : Option Q → Option Q → Bool
  | none, none => true
  | some a, some b => Q.qeq a b
  | _, _ => false

/-- The seeded FX table (server.js:65-75), `USD`-relative rates; the
hourly refresh replaces values but the claims only need the lookup
structure. -/
def exchangeRatesSeed : String → Option Q := fun c =>
  ([("USD", (⟨1, 1⟩ : Q)), ("EUR", ⟨92, 100⟩), ("GBP", ⟨79, 100⟩),
    ("TRY", ⟨33, 1⟩), ("JPY", ⟨150, 1⟩), ("CAD", ⟨135, 100⟩),
    ("AUD", ⟨15, 10⟩), ("CHF", ⟨88, 100⟩), ("CNY", ⟨72, 10⟩)].find?
      (fun p => p.1 = c)).map Prod.snd

/-- Embedding of `convertToUSD` (server.js:1234-1240): divide by the rate
when one is present, finite and positive, else return the amount
unchanged.  The `Number.isFinite(amount)` guard of the source is already
enforced at the call site, which only converts finite prices. -/
def convertToUSD (amount : Q) (currency : Option String)
    (rates : String → Option Q) : Q :=
  let c : String := ⟨toUpperL (match currency with
    | some s => if s ≠ "" then s.data else "USD".data
    | none => "USD".data)⟩
  match rates c with
  | none => amount
  | some rate => if Q.qle rate 0 then amount else Q.div amount rate

/-- Global alert rules (server.js:90-101). -/
structure AlertRules where
  targetHitEnabled : Bool
  priceDropEnabled : Bool
  priceDrop24hEnabled : Bool
  priceDrop24hPercent : Q
  allTimeLowEnabled : Bool
  lowConfidenceEnabled : Bool
  lowConfidenceThreshold : Q
  staleEnabled : Bool
  staleHours : Q
  notifyCooldownMinutes : Q
deriving DecidableEq, Repr

/-- The `DEFAULT_ALERT_RULES` record. -/
def DEFAULT_ALERT_RULES : AlertRules :=
  { targetHitEnabled := true, priceDropEnabled := true,
    priceDrop24hEnabled := true, priceDrop24hPercent := 5,
    allTimeLowEnabled := true, lowConfidenceEnabled := true,
    lowConfidenceThreshold := 55, staleEnabled := true, staleHours := 12,
    notifyCooldownMinutes := 240 }

/-- The in-memory cooldown map `alertCooldownByKey`, keyed by alert key. -/
abbrev CMap := List (String × Int)

/-- Map read with the source's `|| 0` default. -/
def cmGet (m : CMap) (key : String) : Int :=
  ((m.find? (fun p => p.1 = key)).map Prod.snd).getD 0

/-- Map write (`Map.set`: update in place or append). -/
def cmSet (m : CMap) (key : String) (t : Int) : CMap :=
  if (m.find? (fun p => p.1 = key)).isSome then
    m.map (fun p => if p.1 = key then (key, t) else p)
  else m ++ [(key, t)]

/-- Embedding of `shouldSendAlert` (server.js:1374-1382): fire iff at
least the cooldown window has passed since the recorded last fire of the
key, recording the new fire time when firing.  A falsy (zero) configured
cooldown falls back to the default 240 minutes, and the window is at
least one minute. -/
def shouldSendAlert (cooldownMinutes : Q) (m : CMap) (key : String)
    (now : Int) : Bool × CMap :=
  let base : Q := if Q.qeq cooldownMinutes 0 then
      DEFAULT_ALERT_RULES.notifyCooldownMinutes
    else cooldownMinutes
  let cooldownMs : Q := Q.mul (Q.qmax 1 base) ⟨60 * 1000, 1⟩
  let last := cmGet m key
  if Q.qlt (Q.ofInt (now - last)) cooldownMs then (false, m)
  else (true, cmSet m key now)

/-- A run of `shouldSendAlert` calls: each event is a key with the wall
time of the call; the output records whether each call fired. -/
def runAlerts (cooldownMinutes : Q) : CMap → List (String × Int) → List (String × Int × Bool)
  | _, [] => []
  | m, (k, t) :: rest =>
    let r := shouldSendAlert cooldownMinutes m k t
    (k, t, r.1) :: runAlerts cooldownMinutes r.2 rest

/-- The wall times at which a run fired for a given key. -/
def fireTimes (key : String) (out : List (String × Int × Bool)) : List Int :=
  (out.filter (fun e => e.1 = key && e.2.2)).map (fun e => e.2.1)

/-- One point of an item price history (`{date, price}`; dates are epoch
milliseconds). -/
structure HistEntry where
  date : Int
  price : Q
deriving DecidableEq, Repr

/-- A tracked item (the fields of the data model that the engine reads or
writes). -/
structure Item where
  id : String
  name : String
  url : String
  listId : String
  selector : Option String
  targetPrice : Option Q
  currentPrice : Option Q
  currency : Option String
  priceInUSD : Option Q
  lastSeenPrice : Option Q
  history : List HistEntry
  stockStatus : String
  stockConfidence : Int
  stockReason : String
  stockSource : Option String
  extractionConfidence : Int
  lastChecked : Option Int
  lastCheckAttempt : Option Int
  lastCheckStatus : String
  lastCheckError : String
deriving DecidableEq, Repr

/-- The extraction outcome consumed by the per-item check (prices are the
numeric values of the extraction; `availability` the classifier verdict). -/
structure CheckExtraction where
  price : Option Q
  currency : String
  confidence : Int
  source : Option String
  selectorUsed : Option String
  availability : Availability
deriving DecidableEq, Repr

/-- One diagnostics entry (server.js:1520-1535 and friends). -/
structure Diag where
  time : Int
  itemId : String
  itemName : String
  url : String
  listId : String
  ok : Bool
  price : Option Q
  currency : Option String
  confidence : Int
  source : Option String
  selectorUsed : Option String
  stockStatus : String
  outOfStock : Bool
  stockReason : String
  error : Option String
deriving DecidableEq, Repr

/-- Embedding of `addDiagnostic` (server.js:166-173): newest first, ring
capped at 2000 entries. -/
def addDiagnostic (d : Diag) (diagnostics : List Diag) : List Diag :=
  (d :: diagnostics).take 2000

/-- Embedding of `findPriceNear24h` (server.js:1384-1400): history point
closest in time to 24 hours ago, earliest wins ties. -/
def findPriceNear24h (history : List HistEntry) (nowTs : Int) : Option HistEntry :=
  let targetTs := nowTs - 24 * 60 * 60 * 1000
  (history.foldl
    (fun best p =>
      match best with
      | none => some (p, (p.date - targetTs).natAbs)
      | some (bp, bd) =>
        if (p.date - targetTs).natAbs < bd then some (p, (p.date - targetTs).natAbs)
        else some (bp, bd))
    none).map Prod.fst

/-- Fire helper: consult the cooldown and record the dispatch. -/
def fireAlert (rules : AlertRules) (key : String) (now : Int)
    (cd : CMap) (alerts : List String) : CMap × List String :=
  let r := shouldSendAlert rules.notifyCooldownMinutes cd key now
  if r.1 then (r.2, alerts ++ [key]) else (r.2, alerts)

/-- The price-change section of the per-item check (server.js:1450-1496):
alert evaluation in source order — price drop, target hit, 24h drop,
all-time low — followed by the `currentPrice` update and the conditional
history append.  Reading the old price as a number maps the source's
`null` to `0` (JS `Number(null)`). -/
def priceChangeStep (rules : AlertRules) (now : Int) (item : Item) (p : Q)
    (cd : CMap) (alerts : List String) : Item × CMap × List String :=
  let oldPrice : Q := match item.currentPrice with
    | some q => q
    | none => 0
  let s1 :=
    if rules.priceDropEnabled && Q.qlt p oldPrice then
      fireAlert rules ("drop:" ++ item.id) now cd alerts
    else (cd, alerts)
  let s2 :=
    if rules.targetHitEnabled &&
        (match item.targetPrice with
         | some t => !Q.qeq t 0 && Q.qle p t && Q.qlt t oldPrice
         | none => false) then
      fireAlert rules ("target:" ++ item.id) now s1.1 s1.2
    else s1
  let s3 :=
    if rules.priceDrop24hEnabled && item.history.length > 1 then
      match findPriceNear24h item.history now with
      | some ref =>
        if Q.qlt 0 ref.price then
          let pctDrop := Q.mul (Q.div (Q.sub ref.price p) ref.price) 100
          if Q.qle rules.priceDrop24hPercent pctDrop && Q.qlt p oldPrice then
            fireAlert rules ("drop24h:" ++ item.id) now s2.1 s2.2
          else s2
        else s2
      | none => s2
    else s2
  let s4 :=
    if rules.allTimeLowEnabled then
      let minBefore := item.history.foldl (fun m h => Q.qmin m h.price) oldPrice
      if Q.qlt p minBefore then fireAlert rules ("atl:" ++ item.id) now s3.1 s3.2
      else s3
    else s3
  let item := { item with currentPrice := some p }
  let item :=
    { item with history :=
        match item.history.getLast? with
        | none => item.history ++ [⟨now, p⟩]
        | some lastH =>
          if !Q.qeq lastH.price p || now - lastH.date > 24 * 60 * 60 * 1000 then
            item.history ++ [⟨now, p⟩]
          else item.history }
  (item, s4.1, s4.2)

/-- Embedding of one iteration of the `checkPrices` loop
(server.js:1429-1590), with the fetch/extraction outcome as input: `.ok`
carries the extraction of the fetched page, `.error` the thrown message. -/
def checkItem (rules : AlertRules) (rates : String → Option Q) (now : Int)
    (item : Item) (outcome : Except String CheckExtraction)
    (cd : CMap) (diagnostics : List Diag) (alerts : List String) :
    Item × CMap × List Diag × List String :=
  match outcome with
  | .error msg =>
    let item2 := { item with
      lastCheckAttempt := some now,
      lastCheckStatus := "fail",
      lastCheckError := msg }
    let d : Diag :=
      { time := now, itemId := item.id, itemName := item.name, url := item.url,
        listId := if item.listId ≠ "" then item.listId else "default",
        ok := false, price := none,
        currency := (match item.currency with
          | some s => if s ≠ "" then some s else none
          | none => none),
        confidence := 0, source := none,
        selectorUsed := (match item.selector with
          | some s => if s ≠ "" then some s else none
          | none => none),
        stockStatus := if item.stockStatus ≠ "" then item.stockStatus else "unknown",
        outOfStock := false,
        stockReason := item.stockReason, error := some msg }
    let diagnostics := addDiagnostic d diagnostics
    let s :=
      if rules.staleEnabled then
        let lastV : Int := match item.lastChecked with
          | some t => t
          | none => 0
        let staleMs : Q := Q.mul rules.staleHours ⟨60 * 60 * 1000, 1⟩
        if lastV = 0 || Q.qlt staleMs (Q.ofInt (now - lastV)) then
          fireAlert rules ("stale:" ++ item.id) now cd alerts
        else (cd, alerts)
      else (cd, alerts)
    (item2, s.1, diagnostics, s.2)
  | .ok e =>
    let availability := e.availability
    let isOutOfStock := availability.status = "out_of_stock"
    let item1 := { item with
      stockStatus := if availability.status ≠ "" then availability.status else "unknown",
      stockConfidence := availability.confidence,
      stockReason := availability.reason,
      stockSource := (match availability.source with
        | some s => if s ≠ "" then some s else none
        | none => none) }
    if e.price.isSome || isOutOfStock then
      let item2 := { item1 with
        currency := some (if e.currency ≠ "" then e.currency else "USD"),
        lastCheckAttempt := some now }
      let step :=
        if !isOutOfStock && !optQEq e.price item.currentPrice then
          match e.price with
          | some p => priceChangeStep rules now item2 p cd alerts
          | none => (item2, cd, alerts)
        else (item2, cd, alerts)
      let item3 := step.1
      let cd1 := step.2.1
      let alerts1 := step.2.2
      let cur : String := match item3.currency with
        | some s => if s ≠ "" then s else "USD"
        | none => "USD"
      let item4 := { item3 with currency := some cur }
      let item5 :=
        match e.price with
        | some p => { item4 with
            lastSeenPrice := some p,
            priceInUSD := some (convertToUSD p (some cur) rates) }
        | none => item4
      let item6 := { item5 with
        extractionConfidence := e.confidence,
        lastChecked := some now,
        lastCheckStatus := "ok",
        lastCheckError := "" }
      let s1 :=
        if isOutOfStock then fireAlert rules ("oos:" ++ item.id) now cd1 alerts1
        else (cd1, alerts1)
      let s2 :=
        if rules.lowConfidenceEnabled && e.confidence > 0 &&
            Q.qlt (Q.ofInt e.confidence) rules.lowConfidenceThreshold then
          fireAlert rules ("lowconf:" ++ item.id) now s1.1 s1.2
        else s1
      let d : Diag :=
        { time := now, itemId := item.id, itemName := item.name, url := item.url,
          listId := if item.listId ≠ "" then item.listId else "default",
          ok := true, price := e.price, currency := some cur,
          confidence := e.confidence, source := e.source,
          selectorUsed := e.selectorUsed, stockStatus := item6.stockStatus,
          outOfStock := isOutOfStock, stockReason := item6.stockReason,
          error := none }
      (item6, s2.1, addDiagnostic d diagnostics, s2.2)
    else
      let item2 := { item1 with
        lastCheckAttempt := some now,
        lastCheckStatus := "fail",
        lastCheckError := "No price extracted" }
      let d : Diag :=
        { time := now, itemId := item.id, itemName := item.name, url := item.url,
          listId := if item.listId ≠ "" then item.listId else "default",
          ok := false, price := none,
          currency := (match item.currency with
            | some s => if s ≠ "" then some s else none
            | none => none),
          confidence := e.confidence, source := e.source,
          selectorUsed := e.selectorUsed,
          stockStatus := if item2.stockStatus ≠ "" then item2.stockStatus else "unknown",
          outOfStock := false, stockReason := item2.stockReason,
          error := some "No price extracted" }
      (item2, cd, addDiagnostic d diagnostics, alerts)

/-- Embedding of a full sweep of `checkPrices` (server.js:1421-1600): each
scheduled item comes with the wall time its check started and its
fetch/extraction outcome; a thrown check records its failure and the
sweep continues with the next item. -/
def checkPrices (rules : AlertRules) (rates : String → Option Q) :
    List (Item × Int × Except String CheckExtraction) →
    CMap → List Diag → List String → List Item × CMap × List Diag × List String
  | [], cd, diagnostics, alerts => ([], cd, diagnostics, alerts)
  | (item, now, outcome) :: rest, cd, diagnostics, alerts =>
    let r := checkItem rules rates now item outcome cd diagnostics alerts
    let rr := checkPrices rules rates rest r.2.1 r.2.2.1 r.2.2.2
    (r.1 :: rr.1, rr.2)

/-- Value of a hexadecimal digit. -/
def hexVal (c : Char) : Option Nat :=
  if '0' ≤ c && c ≤ '9' then some (c.toNat - 48)
  else if 'a' ≤ c && c ≤ 'f' then some (c.toNat - 87)
  else if 'A' ≤ c && c ≤ 'F' then some (c.toNat - 55)
  else none

/-- One IPv4 octet: one to three digits, no leading zero, at most 255. -/
def parseOctet (g : List Char) : Option Nat :=
  if g.isEmpty || g.length > 3 || !(g.all Char.isDigit) then none
  else if g.length > 1 && g.headD '0' = '0' then none
  else
    let v := digitsVal g
    if v ≤ 255 then some v else none

/-- Dotted-quad IPv4 parse (the grammar `net.isIP` classifies as `4`). -/
def parseIPv4 (cs : List Char) : Option (Nat × Nat × Nat × Nat) :=
  match (splitOnChar '.' cs).mapM parseOctet with
  | some [a, b, c, d] => some (a, b, c, d)
  | _ => none

/-- One IPv6 group: one to four hexadecimal digits. -/
def parseHexGroup (g : List Char) : Option Nat :=
  if g.isEmpty || g.length > 4 then none
  else (g.mapM hexVal).map (fun ds => ds.foldl (fun a v => a * 16 + v) 0)

/-- Expand the final colon part, which may be an embedded dotted quad
(two groups) or an ordinary hex group. -/
def parseTailPart (g : List Char) : Option (List Nat) :=
  if g.contains '.' then
    (parseIPv4 g).map (fun q => [q.1 * 256 + q.2.1, q.2.2.1 * 256 + q.2.2.2])
  else (parseHexGroup g).map (fun v => [v])

/-- Expand a run of colon parts; only the final part may be a dotted
quad. -/
def parseParts : List (List Char) → Option (List Nat)
  | [] => some []
  | [g] => parseTailPart g
  | g :: rest =>
    match parseHexGroup g, parseParts rest with
    | some v, some vs => some (v :: vs)
    | _, _ => none

/-- Expand an abbreviated address: left groups, zero fill, right groups. -/
def expandAbbrev (left right : List (List Char)) : Option (List Nat) :=
  match parseParts left, parseParts right with
  | some ls, some rs =>
    if ls.length + rs.length ≤ 7 then
      some (ls ++ List.replicate (8 - ls.length - rs.length) 0 ++ rs)
    else none
  | _, _ => none

/-- IPv6 textual parse to its eight 16-bit groups, accepting one `::`
abbreviation and an embedded IPv4 tail (the grammar `net.isIP`
classifies as `6`). -/
def parseIPv6 (cs : List Char) : Option (List Nat) :=
  let parts := splitOnChar ':' cs
  let emptyCount := (parts.filter (·.isEmpty)).length
  if emptyCount = 0 then
    match parseParts parts with
    | some vs => if vs.length = 8 then some vs else none
    | none => none
  else if parts = [[], [], []] then some (List.replicate 8 0)
  else
    match parts with
    | [] :: [] :: rest =>
      if rest ≠ [] && (rest.filter (·.isEmpty)).length = 0 then
        expandAbbrev [] rest
      else none
    | _ =>
      match parts.reverse with
      | [] :: [] :: revLeft =>
        if (revLeft.filter (·.isEmpty)).length = 0 then
          expandAbbrev revLeft.reverse []
        else none
      | _ =>
        if emptyCount = 1 then
          let left := parts.takeWhile (fun g => !g.isEmpty)
          let right := (parts.dropWhile (fun g => !g.isEmpty)).drop 1
          if left ≠ [] && right ≠ [] && (right.filter (·.isEmpty)).length = 0 then
            expandAbbrev left right
          else none
        else none

/-- Embedding of `net.isIP`: `4` for a dotted quad, `6` for an IPv6
literal, `0` otherwise. -/
def netIsIP (ip : String) : Nat :=
  if (parseIPv4 ip.data).isSome then 4
  else if (parseIPv6 ip.data).isSome then 6
  else 0

/-- Embedding of `isPrivateOrSpecialIp` (server.js:1910-1931): non-IPs are
refused, IPv4 is classified by its leading octets, IPv6 by textual
prefixes of the lowercased literal. -/
def isPrivateOrSpecialIp (ipAddress : String) : Bool :=
  let family := netIsIP ipAddress
  if family = 0 then true
  else if family = 4 then
    let octets := (splitOnChar '.' ipAddress.data).map digitsVal
    let a := octets.headD 0
    let b := (octets.drop 1).headD 0
    if a = 10 then true
    else if a = 127 then true
    else if a = 0 then true
    else if a = 169 && b = 254 then true
    else if a = 172 && 16 ≤ b && b ≤ 31 then true
    else if a = 192 && b = 168 then true
    else false
  else
    let normalized := toLowerL ipAddress.data
    normalized = "::1".data || "fe80:".data.isPrefixOf normalized ||
    "fc".data.isPrefixOf normalized || "fd".data.isPrefixOf normalized

deriving instance DecidableEq for Except

/-- Parsed pieces of `new URL` that `validateFetchUrl` reads.  URL parsing
itself is an external library; the validator receives its outcome
(`none` when the constructor throws). -/
structure UrlParts where
  protocol : String
  hostname : String
deriving DecidableEq, Repr

/-- Embedding of `validateFetchUrl` (server.js:1933-1968).  The DNS
resolution is an input: `none` when `dns.lookup` rejects, otherwise the
list of resolved address literals.  Errors are the source's exact throw
messages. -/
def validateFetchUrl (parsed : Option UrlParts) (allowedHosts : List String)
    (dnsResult : Option (List String)) : Except String Unit :=
  match parsed with
  | none => .error "Invalid URL"
  | some u =>
    if !(u.protocol = "http:" || u.protocol = "https:") then
      .error "Only http/https URLs are allowed"
    else
      let hostname : String := ⟨toLowerL u.hostname.data⟩
      if hostname = "localhost" then .error "Refusing localhost fetch"
      else if allowedHosts.length ≠ 0 && !(allowedHosts.contains hostname) then
        .error "Host is not allowlisted"
      else
        match dnsResult with
        | none => .error "Failed to resolve hostname"
        | some records =>
          if records.length = 0 then .error "Hostname has no DNS records"
          else if records.any isPrivateOrSpecialIp then
            .error "Refusing private/link-local destination"
          else .ok ()

/-- Dotted-quad rendering of four octets (the textual form `dns.lookup`
reports for an IPv4 record). -/
def renderIPv4 (a b c d : Nat) : String :=
  ⟨natToDigits a ++ '.' :: natToDigits b ++ '.' :: natToDigits c ++ '.' :: natToDigits d⟩

/-- Ground truth for the claim's IPv6 link-local range `fe80::/10`: the
top ten bits of the first group. -/
def inLinkLocalRange (ip : String) : Bool :=
  match parseIPv6 (toLowerL ip.data) with
  | some (g :: _) => g / 64 = 1018
  | _ => false

/-- Membership in a filter, specialized to the Boolean predicates used by
the gate. -/
theorem mem_filter_bool {α : Type} (p : α → Bool) (l : List α) (x : α) :
    x ∈ l.filter p ↔ x ∈ l ∧ p x = true := by
  simp [List.mem_filter]

/-- C1: the claim reads the Amazon gate as dropping a candidate only when
the selector is unapproved AND the currency differs, so any candidate in
the host-preferred currency would survive.  The source chains two
filters, so an approved selector (or custom source) is required even when
the currency matches: a JSON-LD candidate priced in the host currency is
dropped, no candidate is ranked, and the extraction returns a null price. -/
theorem c1_counterexample :
    (parseHtml [.obj [("offers", .obj [("price", .str "199.99"),
        ("priceCurrency", .str "USD")])]] [] none [] [] [] true "USD"
        ⟨"unknown", 0, "", none⟩).price = none ∧
    extractFromJsonLd [.obj [("offers", .obj [("price", .str "199.99"),
        ("priceCurrency", .str "USD")])]] "USD" ≠ [] ∧
    (∀ c ∈ extractFromJsonLd [.obj [("offers", .obj [("price", .str "199.99"),
        ("priceCurrency", .str "USD")])]] "USD", c.currency = "USD") ∧
    amazonScope true "USD" (extractFromJsonLd [.obj [("offers",
        .obj [("price", .str "199.99"), ("priceCurrency", .str "USD")])]] "USD") = [] := by
  refine ⟨by decide, by decide, ?_, by decide⟩
  decide

/-- C1 (amended): on Amazon hosts the pre-ranking gate keeps a candidate
iff it is custom-sourced or carries one of the approved Amazon/meta price
selectors, and in addition its currency equals the host-preferred
currency; a candidate failing either condition is dropped, matching
currency alone does not let it survive. -/
theorem c1_amazon_gate (preferredCurrency : String) (candidates : List Cand)
    (c : Cand) :
    c ∈ amazonScope true preferredCurrency candidates ↔
      c ∈ candidates ∧
        (c.source = "custom" ∨ amazonApprovedSelector c.selector = true) ∧
        c.currency = preferredCurrency := by
  simp only [amazonScope, if_pos]
  rw [mem_filter_bool, mem_filter_bool]
  constructor
  · rintro ⟨⟨hmem, hsel⟩, hcur⟩
    refine ⟨hmem, ?_, by simpa using hcur⟩
    rcases Bool.or_eq_true_iff.mp hsel with h | h
    · exact Or.inl (by simpa using h)
    · exact Or.inr h
  · rintro ⟨hmem, hsel, hcur⟩
    refine ⟨⟨hmem, ?_⟩, by simpa using hcur⟩
    rcases hsel with h | h
    · exact Bool.or_eq_true_iff.mpr (Or.inl (by simpa using h))
    · exact Bool.or_eq_true_iff.mpr (Or.inr h)

/-- C3: on an Amazon host, an out-of-stock verdict with confidence at
least 80 suppresses any extracted price — the result's price is null even
when candidates exist — and the returned confidence equals the
availability confidence (classifier confidences are integers in
`[0, 100]`). -/
theorem c3_amazon_oos_suppression (scripts : List JsonVal) (rawCands : List Cand)
    (customSelector : Option String) (customHits selectorHits : List (String × String))
    (bodyTexts : List String) (preferredCurrency : String) (av : Availability)
    (hst : av.status = "out_of_stock") (h80 : 80 ≤ av.confidence)
    (h100 : av.confidence ≤ 100) :
    (parseHtml scripts rawCands customSelector customHits selectorHits bodyTexts
        true preferredCurrency av).price = none ∧
    (parseHtml scripts rawCands customSelector customHits selectorHits bodyTexts
        true preferredCurrency av).confidence = av.confidence := by
  have hsup : (true && av.status = "out_of_stock" && av.confidence ≥ 80) = true := by
    simp [hst]; omega
  have hnp : (av.confidence > 0 && av.status = "out_of_stock") = true := by
    simp [hst]; omega
  have hnc : normalizeConfidence av.confidence = av.confidence := by
    simp only [normalizeConfidence]; omega
  have hpos : (0 : Int) < av.confidence := by omega
  unfold parseHtml
  simp only [hsup, hnp, if_true, hst]
  cases h : (rankCandidates (amazonScope true preferredCurrency _)).head? with
  | none => simp [h, hpos, normalizeConfidence]; omega
  | some b =>
    simp only [h]
    simp [hsup, hnp, normalizeConfidence, hpos, h80]
    omega

/-- Witness for C3: a concrete Amazon page with a core-price candidate and
an out-of-stock verdict at confidence 88 returns a null price and
confidence 88. -/
theorem c3_amazon_oos_suppression_witness :
    (parseHtml [] [] none []
        [("#corePrice_feature_div .a-price .a-offscreen", "$1,299.00")] []
        true "USD" ⟨"out_of_stock", 88, "", none⟩).price = none ∧
    (parseHtml [] [] none []
        [("#corePrice_feature_div .a-price .a-offscreen", "$1,299.00")] []
        true "USD" ⟨"out_of_stock", 88, "", none⟩).confidence = 88 :=
  c3_amazon_oos_suppression [] [] none []
    [("#corePrice_feature_div .a-price .a-offscreen", "$1,299.00")] []
    "USD" ⟨"out_of_stock", 88, "", none⟩ rfl (by decide) (by decide)

/-- The split always produces at least one group. -/
theorem splitOnChar_ne_nil (sep : Char) (xs : List Char) :
    splitOnChar sep xs ≠ [] := by
  cases xs with
  | nil => simp [splitOnChar]
  | cons c rest =>
    rw [splitOnChar]
    cases splitOnChar sep rest with
    | nil => simp
    | cons g gs =>
      by_cases hc : c = sep <;> simp [hc]

/-- Splitting a separator-free list yields the single group. -/
theorem splitOnChar_no_sep (sep : Char) (xs : List Char)
    (h : xs.contains sep = false) : splitOnChar sep xs = [xs] := by
  induction xs with
  | nil => rfl
  | cons c rest ih =>
    simp only [List.contains_cons, Bool.or_eq_false_iff] at h
    have hc : ¬ c = sep := by
      intro hcs
      subst hcs
      simp at h
    rw [splitOnChar, ih h.2]
    simp [hc]

/-- Splitting distributes over the first separator occurrence. -/
theorem splitOnChar_append (sep : Char) (xs ys : List Char)
    (h : xs.contains sep = false) :
    splitOnChar sep (xs ++ sep :: ys) = xs :: splitOnChar sep ys := by
  induction xs with
  | nil =>
    simp only [List.nil_append]
    rw [splitOnChar]
    have hne := splitOnChar_ne_nil sep ys
    cases hs : splitOnChar sep ys with
    | nil => exact absurd hs hne
    | cons g gs => simp
  | cons c rest ih =>
    simp only [List.contains_cons, Bool.or_eq_false_iff] at h
    have hc : ¬ c = sep := by
      intro hcs
      subst hcs
      simp at h
    simp only [List.cons_append]
    rw [splitOnChar, ih h.2]
    simp [hc]

set_option maxRecDepth 4096 in
/-- Octet renderings below 256 parse back to themselves, have the rendered
value, and contain no dot (checked exhaustively). -/
theorem octet_render_facts :
    ∀ k : Fin 256, parseOctet (natToDigits k.val) = some k.val ∧
      digitsVal (natToDigits k.val) = k.val ∧
      (natToDigits k.val).contains '.' = false := by decide

/-- C5: the claim covers the whole link-local block `fe80::/10`, but the
source tests the textual prefix `fe80:` only, which is `fe80::/16`: the
genuinely link-local address `fe81::1` is not classified as private, and
a URL resolving to it validates successfully instead of failing with
`private_destination`. -/
theorem c5_counterexample :
    inLinkLocalRange "fe81::1" = true ∧
    isPrivateOrSpecialIp "fe81::1" = false ∧
    validateFetchUrl (some ⟨"http:", "tracked.example"⟩) [] (some ["fe81::1"]) =
      .ok () := by decide

/-- C5 (amended): whenever some resolved address is one the source's
classifier flags — all of `127/8`, `0/8`, `169.254/16`, `10/8`,
`172.16/12`, `192.168/16` for IPv4, and for IPv6 the textual forms `::1`,
`fe80:`-prefixed (so `fe80::/16` rather than all of `fe80::/10`) and
`fc`/`fd`-prefixed (`fc00::/7`) — a URL that passes the earlier guards is
rejected with `private_destination`; on dotted quads the classifier
decides exactly by the claimed IPv4 ranges. -/
theorem c5_private_destination (u : UrlParts) (allowed : List String)
    (records : List String)
    (hproto : u.protocol = "http:" ∨ u.protocol = "https:")
    (hlocal : (⟨toLowerL u.hostname.data⟩ : String) ≠ "localhost")
    (hallow : allowed = [] ∨ allowed.contains (⟨toLowerL u.hostname.data⟩ : String) = true)
    (hne : records ≠ [])
    (hpriv : ∃ r ∈ records, isPrivateOrSpecialIp r = true) :
    validateFetchUrl (some u) allowed (some records) =
      .error "Refusing private/link-local destination" ∧
    ∀ a b c d : Nat, a ≤ 255 → b ≤ 255 → c ≤ 255 → d ≤ 255 →
      (isPrivateOrSpecialIp (renderIPv4 a b c d) = true ↔
        a = 10 ∨ a = 127 ∨ a = 0 ∨ (a = 169 ∧ b = 254) ∨
        (a = 172 ∧ 16 ≤ b ∧ b ≤ 31) ∨ (a = 192 ∧ b = 168)) := by
  constructor
  · have hp : (u.protocol = "http:" || u.protocol = "https:") = true := by
      rcases hproto with h | h <;> simp [h]
    have hany : records.any isPrivateOrSpecialIp = true := by
      rcases hpriv with ⟨r, hr, hpr⟩
      exact List.any_eq_true.mpr ⟨r, hr, hpr⟩
    have hlen : ¬ records.length = 0 := by
      intro h0
      exact hne (List.eq_nil_of_length_eq_zero h0)
    unfold validateFetchUrl
    simp only [hp, Bool.not_true, if_neg]
    rw [if_neg hlocal]
    rcases hallow with h | h
    · subst h
      simp [hlen, hany]
    · have hmem : (⟨toLowerL u.hostname.data⟩ : String) ∈ allowed := by
        simpa using h
      simp [hmem, hlen, hany]
  · intro a b c d ha hb hc hd
    obtain ⟨hpa, hva, hda⟩ := octet_render_facts ⟨a, by omega⟩
    obtain ⟨hpb, hvb, hdb⟩ := octet_render_facts ⟨b, by omega⟩
    obtain ⟨hpc, hvc, hdc⟩ := octet_render_facts ⟨c, by omega⟩
    obtain ⟨hpd, hvd, hdd⟩ := octet_render_facts ⟨d, by omega⟩
    simp only [Fin.val_mk] at hpa hva hda hpb hvb hdb hpc hvc hdc hpd hvd hdd
    have hsplit : splitOnChar '.' (renderIPv4 a b c d).data =
        [natToDigits a, natToDigits b, natToDigits c, natToDigits d] := by
      have hr : (renderIPv4 a b c d).data = natToDigits a ++ '.' ::
          (natToDigits b ++ '.' :: (natToDigits c ++ '.' :: natToDigits d)) := by
        simp [renderIPv4]
      rw [hr, splitOnChar_append _ _ _ hda, splitOnChar_append _ _ _ hdb,
        splitOnChar_append _ _ _ hdc, splitOnChar_no_sep _ _ hdd]
    have hparse : parseIPv4 (renderIPv4 a b c d).data = some (a, b, c, d) := by
      unfold parseIPv4
      rw [hsplit]
      simp [List.mapM, List.mapM.loop, hpa, hpb, hpc, hpd]
    have hfam : netIsIP (renderIPv4 a b c d) = 4 := by
      unfold netIsIP
      simp [hparse]
    unfold isPrivateOrSpecialIp
    rw [hfam]
    simp only [hsplit, List.map_cons, List.map_nil, hva, hvb, hvc, hvd]
    simp only [List.headD_cons, List.drop_succ_cons, List.drop_zero]
    clear hsplit hparse hpa hpb hpc hpd hva hvb hvc hvd hda hdb hdc hdd
    clear hpriv hne hallow hlocal hproto hfam
    norm_num
    tauto

/-- Witness for C5 (amended): `http://10.0.0.5/` resolves to itself and is
rejected with `private_destination`. -/
theorem c5_private_destination_witness :
    validateFetchUrl (some ⟨"http:", "10.0.0.5"⟩) [] (some ["10.0.0.5"]) =
      .error "Refusing private/link-local destination" :=
  (c5_private_destination ⟨"http:", "10.0.0.5"⟩ [] ["10.0.0.5"]
    (Or.inl rfl) (by decide) (Or.inl rfl) (by decide)
    ⟨"10.0.0.5", by decide, by decide⟩).1

/-- A sweep processes every scheduled item: one output item per input
entry, whatever each check's outcome. -/
theorem checkPrices_length (rules : AlertRules) (rates : String → Option Q) :
    ∀ (entries : List (Item × Int × Except String CheckExtraction))
      (cd : CMap) (dg : List Diag) (al : List String),
      (checkPrices rules rates entries cd dg al).1.length = entries.length := by
  intro entries
  induction entries with
  | nil => intro cd dg al; rfl
  | cons e rest ih =>
    intro cd dg al
    obtain ⟨item, now, outcome⟩ := e
    simp only [checkPrices, List.length_cons]
    rw [ih]

/-- C10: when the fetch or extraction throws, the per-item check only sets
the attempt timestamp, the fail status and the error message; every other
item field — prices, currency, history, stock fields, `lastChecked` — is
untouched, exactly one diagnostic entry is prepended (ring-capped), and
the sweep still processes every remaining item. -/
theorem c10_failure_frame (rules : AlertRules) (rates : String → Option Q)
    (now : Int) (item : Item) (msg : String) (cd : CMap)
    (diagnostics : List Diag) (alerts : List String) :
    (checkItem rules rates now item (.error msg) cd diagnostics alerts).1 =
      { item with lastCheckAttempt := some now, lastCheckStatus := "fail",
                  lastCheckError := msg } ∧
    (checkItem rules rates now item (.error msg) cd diagnostics alerts).1.currentPrice
      = item.currentPrice ∧
    (checkItem rules rates now item (.error msg) cd diagnostics alerts).1.lastSeenPrice
      = item.lastSeenPrice ∧
    (checkItem rules rates now item (.error msg) cd diagnostics alerts).1.priceInUSD
      = item.priceInUSD ∧
    (checkItem rules rates now item (.error msg) cd diagnostics alerts).1.currency
      = item.currency ∧
    (checkItem rules rates now item (.error msg) cd diagnostics alerts).1.history
      = item.history ∧
    (checkItem rules rates now item (.error msg) cd diagnostics alerts).1.stockStatus
      = item.stockStatus ∧
    (checkItem rules rates now item (.error msg) cd diagnostics alerts).1.stockConfidence
      = item.stockConfidence ∧
    (checkItem rules rates now item (.error msg) cd diagnostics alerts).1.stockReason
      = item.stockReason ∧
    (checkItem rules rates now item (.error msg) cd diagnostics alerts).1.stockSource
      = item.stockSource ∧
    (checkItem rules rates now item (.error msg) cd diagnostics alerts).1.lastChecked
      = item.lastChecked ∧
    (∃ d : Diag, (checkItem rules rates now item (.error msg) cd diagnostics alerts).2.2.1
        = (d :: diagnostics).take 2000 ∧ d.ok = false ∧ d.error = some msg ∧
        d.price = none ∧ d.time = now ∧ d.itemId = item.id) ∧
    (∀ (entries : List (Item × Int × Except String CheckExtraction))
        (cd2 : CMap) (dg : List Diag) (al : List String),
        (checkPrices rules rates entries cd2 dg al).1.length = entries.length) := by
  refine ⟨rfl, rfl, rfl, rfl, rfl, rfl, rfl, rfl, rfl, rfl, rfl, ?_, checkPrices_length rules rates⟩
  exact ⟨_, rfl, rfl, rfl, rfl, rfl, rfl⟩

/-- C8: a successful per-item check grows the history by at most one
entry, and appends only when the verdict is not out-of-stock and either
the history is empty, the new price differs in value from the last
entry's price, or more than 24 hours passed since the last entry. -/
theorem c8_history_growth (rules : AlertRules) (rates : String → Option Q)
    (now : Int) (item : Item) (e : CheckExtraction) (cd : CMap)
    (diagnostics : List Diag) (alerts : List String) :
    (checkItem rules rates now item (.ok e) cd diagnostics alerts).1.history.length
      ≤ item.history.length + 1 ∧
    ((checkItem rules rates now item (.ok e) cd diagnostics alerts).1.history
        = item.history ∨
      ∃ p, e.price = some p ∧ e.availability.status ≠ "out_of_stock" ∧
        (checkItem rules rates now item (.ok e) cd diagnostics alerts).1.history
          = item.history ++ [⟨now, p⟩] ∧
        (item.history = [] ∨ ∃ lastH, item.history.getLast? = some lastH ∧
          (Q.qeq lastH.price p = false ∨ now - lastH.date > 24 * 60 * 60 * 1000))) := by
  have main : (checkItem rules rates now item (.ok e) cd diagnostics alerts).1.history
        = item.history ∨
      ∃ p, e.price = some p ∧ e.availability.status ≠ "out_of_stock" ∧
        (checkItem rules rates now item (.ok e) cd diagnostics alerts).1.history
          = item.history ++ [⟨now, p⟩] ∧
        (item.history = [] ∨ ∃ lastH, item.history.getLast? = some lastH ∧
          (Q.qeq lastH.price p = false ∨ now - lastH.date > 24 * 60 * 60 * 1000)) := by
    unfold checkItem
    by_cases hoos : e.availability.status = "out_of_stock"
    · left
      cases hp : e.price <;> simp [hoos, hp]
    · cases hp : e.price with
      | none =>
        left
        simp [hoos, hp]
      | some p =>
        by_cases hchg : optQEq e.price item.currentPrice = true
        · left
          rw [hp] at hchg
          simp [hoos, hp, hchg]
        · rw [hp] at hchg
          simp only [hp, Option.isSome_some, Bool.true_or, if_true]
          simp only [hoos, decide_eq_true_eq, Bool.not_eq_true, if_false]
          unfold priceChangeStep
          cases hl : item.history.getLast? with
          | none =>
            right
            refine ⟨p, rfl, hoos, ?_, Or.inl (List.getLast?_eq_none_iff.mp hl)⟩
            simp [hl, hchg, hoos]
          | some lastH =>
            by_cases hcond : (!Q.qeq lastH.price p ||
                decide (now - lastH.date > 86400000)) = true
            · right
              refine ⟨p, rfl, hoos, ?_, Or.inr ⟨lastH, rfl, ?_⟩⟩
              · simp [hl, hchg, hoos, hcond]
              · rcases Bool.or_eq_true_iff.mp hcond with h | h
                · refine Or.inl ?_
                  cases hq : Q.qeq lastH.price p with
                  | false => rfl
                  | true => rw [hq] at h; simp at h
                · have h2 := of_decide_eq_true h
                  refine Or.inr (by omega)
            · left
              rw [Bool.not_eq_true] at hcond
              simp [hl, hchg, hoos, hcond]
  refine ⟨?_, main⟩
  rcases main with h | ⟨p, _, _, h, _⟩ <;> simp [h]

/-- Number-or-null equality is symmetric. -/
theorem optQEq_symm (a b : Option Q) : optQEq a b = optQEq b a := by
  cases a <;> cases b <;> simp [optQEq, Q.qeq, Int.mul_comm] <;> omega

/-- Collapsing the repeated empty-string fallback of the currency field. -/
theorem ifEmptyIdem (s : String) :
    (if (if s = "" then "USD" else s) = "" then "USD"
     else if s = "" then "USD" else s) = if s = "" then "USD" else s := by
  by_cases h : s = "" <;> simp [h]

/-- C4: the claim requires `priceInUSD` to be null when the rate for the
item's currency is missing, but `convertToUSD` returns the amount
unchanged in that case: after a successful check of a 100 SEK price with
the seeded rate table (which has no SEK entry), `priceInUSD` is 100, not
null. -/
theorem c4_counterexample :
    exchangeRatesSeed "SEK" = none ∧
    (checkItem DEFAULT_ALERT_RULES exchangeRatesSeed 1700000000000
        { id := "i1", name := "n", url := "http://x.example/", listId := "default",
          selector := none, targetPrice := none, currentPrice := some 100,
          currency := some "USD", priceInUSD := some 100, lastSeenPrice := some 100,
          history := [⟨0, 100⟩], stockStatus := "in_stock", stockConfidence := 80,
          stockReason := "", stockSource := none, extractionConfidence := 90,
          lastChecked := some 0, lastCheckAttempt := some 0,
          lastCheckStatus := "ok", lastCheckError := "" }
        (.ok { price := some 100, currency := "SEK", confidence := 90,
               source := some "selector", selectorUsed := some ".price",
               availability := ⟨"in_stock", 80, "", none⟩ })
        [] [] []).1.lastCheckStatus = "ok" ∧
    (checkItem DEFAULT_ALERT_RULES exchangeRatesSeed 1700000000000
        { id := "i1", name := "n", url := "http://x.example/", listId := "default",
          selector := none, targetPrice := none, currentPrice := some 100,
          currency := some "USD", priceInUSD := some 100, lastSeenPrice := some 100,
          history := [⟨0, 100⟩], stockStatus := "in_stock", stockConfidence := 80,
          stockReason := "", stockSource := none, extractionConfidence := 90,
          lastChecked := some 0, lastCheckAttempt := some 0,
          lastCheckStatus := "ok", lastCheckError := "" }
        (.ok { price := some 100, currency := "SEK", confidence := 90,
               source := some "selector", selectorUsed := some ".price",
               availability := ⟨"in_stock", 80, "", none⟩ })
        [] [] []).1.currency = some "SEK" ∧
    (checkItem DEFAULT_ALERT_RULES exchangeRatesSeed 1700000000000
        { id := "i1", name := "n", url := "http://x.example/", listId := "default",
          selector := none, targetPrice := none, currentPrice := some 100,
          currency := some "USD", priceInUSD := some 100, lastSeenPrice := some 100,
          history := [⟨0, 100⟩], stockStatus := "in_stock", stockConfidence := 80,
          stockReason := "", stockSource := none, extractionConfidence := 90,
          lastChecked := some 0, lastCheckAttempt := some 0,
          lastCheckStatus := "ok", lastCheckError := "" }
        (.ok { price := some 100, currency := "SEK", confidence := 90,
               source := some "selector", selectorUsed := some ".price",
               availability := ⟨"in_stock", 80, "", none⟩ })
        [] [] []).1.priceInUSD = some 100 := by decide

/-- C4 (amended): after a successful check that recovered a finite price
`p`, `priceInUSD` is `convertToUSD p` of the updated currency — `p / rate`
when a positive rate is known, and `p` itself (not null) when the rate is
missing or non-positive; `lastSeenPrice` is `p`, and when the verdict is
not out-of-stock `currentPrice` equals `p` in value.  When no price was
recovered, `priceInUSD` and `currentPrice` are left unchanged (not set to
null). -/
theorem c4_price_in_usd (rules : AlertRules) (rates : String → Option Q)
    (now : Int) (item : Item) (e : CheckExtraction) (cd : CMap)
    (diagnostics : List Diag) (alerts : List String) :
    (∀ p, e.price = some p →
      ∃ cur, (checkItem rules rates now item (.ok e) cd diagnostics alerts).1.currency
          = some cur ∧
        (checkItem rules rates now item (.ok e) cd diagnostics alerts).1.priceInUSD
          = some (convertToUSD p (some cur) rates) ∧
        (checkItem rules rates now item (.ok e) cd diagnostics alerts).1.lastSeenPrice
          = some p ∧
        (e.availability.status ≠ "out_of_stock" →
          optQEq (checkItem rules rates now item (.ok e) cd diagnostics alerts).1.currentPrice
            (some p) = true)) ∧
    (e.price = none →
      (checkItem rules rates now item (.ok e) cd diagnostics alerts).1.priceInUSD
          = item.priceInUSD ∧
      (checkItem rules rates now item (.ok e) cd diagnostics alerts).1.currentPrice
          = item.currentPrice) ∧
    (∀ (a : Q) (cur : String) (rate : Q),
      rates (⟨toUpperL cur.data⟩ : String) = some rate → cur ≠ "" →
        convertToUSD a (some cur) rates =
          (if Q.qle rate 0 then a else Q.div a rate)) ∧
    (∀ (a : Q) (cur : String),
      rates (⟨toUpperL cur.data⟩ : String) = none → cur ≠ "" →
        convertToUSD a (some cur) rates = a) := by
  refine ⟨?_, ?_, ?_, ?_⟩
  · intro p hp
    by_cases hoos : e.availability.status = "out_of_stock"
    · refine ⟨if e.currency = "" then "USD" else e.currency, ?_, ?_, ?_, ?_⟩
      · simp [checkItem, hp, hoos, ifEmptyIdem]
      · simp [checkItem, hp, hoos, ifEmptyIdem]
      · simp [checkItem, hp, hoos, ifEmptyIdem]
      · intro h; exact absurd hoos h
    · by_cases hchg : optQEq e.price item.currentPrice = true
      · rw [hp] at hchg
        refine ⟨if e.currency = "" then "USD" else e.currency, ?_, ?_, ?_, ?_⟩
        · simp [checkItem, hp, hoos, hchg, ifEmptyIdem]
        · simp [checkItem, hp, hoos, hchg, ifEmptyIdem]
        · simp [checkItem, hp, hoos, hchg, ifEmptyIdem]
        · intro _
          have hcp : (checkItem rules rates now item (.ok e) cd diagnostics
              alerts).1.currentPrice = item.currentPrice := by
            simp [checkItem, hp, hoos, hchg]
          rw [hcp, optQEq_symm]
          exact hchg
      · rw [hp] at hchg
        refine ⟨if e.currency = "" then "USD" else e.currency, ?_, ?_, ?_, ?_⟩
        · simp [checkItem, hp, hoos, hchg, priceChangeStep, ifEmptyIdem]
        · simp [checkItem, hp, hoos, hchg, priceChangeStep, ifEmptyIdem]
        · simp [checkItem, hp, hoos, hchg, priceChangeStep, ifEmptyIdem]
        · intro _
          rw [Bool.not_eq_true] at hchg
          cases hcur : item.currentPrice with
          | none =>
            rw [hcur] at hchg
            simp [checkItem, hp, hoos, hcur, hchg, priceChangeStep, ifEmptyIdem,
              optQEq, Q.qeq]
          | some q =>
            rw [hcur] at hchg
            simp only [optQEq, Q.qeq] at hchg
            simp [checkItem, hp, hoos, hcur, hchg, priceChangeStep, ifEmptyIdem,
              optQEq, Q.qeq]
  · intro hp
    by_cases hoos : e.availability.status = "out_of_stock"
    · constructor <;> simp [checkItem, hp, hoos, optQEq]
    · constructor <;> simp [checkItem, hp, hoos]
  · intro a cur rate hr hcur
    simp [convertToUSD, hcur, hr]
  · intro a cur hr hcur
    simp [convertToUSD, hcur, hr]

/-- Witness for C4 (amended): with the seeded table, which has no SEK
rate, converting 100 SEK leaves the amount unchanged. -/
theorem c4_price_in_usd_witness :
    convertToUSD 100 (some "SEK") exchangeRatesSeed = 100 :=
  (c4_price_in_usd DEFAULT_ALERT_RULES exchangeRatesSeed 1700000000000
      { id := "i1", name := "n", url := "http://x.example/", listId := "default",
        selector := none, targetPrice := none, currentPrice := some 100,
        currency := some "USD", priceInUSD := some 100, lastSeenPrice := some 100,
        history := [⟨0, 100⟩], stockStatus := "in_stock", stockConfidence := 80,
        stockReason := "", stockSource := none, extractionConfidence := 90,
        lastChecked := some 0, lastCheckAttempt := some 0,
        lastCheckStatus := "ok", lastCheckError := "" }
      { price := some 100, currency := "SEK", confidence := 90,
        source := some "selector", selectorUsed := some ".price",
        availability := ⟨"in_stock", 80, "", none⟩ }
      [] [] []).2.2.2 100 "SEK" (by decide) (by decide)

/-- Reading a cons cell of the cooldown map. -/
theorem cmGet_cons (p : String × Int) (rest : CMap) (k : String) :
    cmGet (p :: rest) k = if p.1 = k then p.2 else cmGet rest k := by
  by_cases h : p.1 = k <;> simp [cmGet, List.find?_cons, h]

/-- Reading back the key just written. -/
theorem cmGet_cmSet_self (m : CMap) (k : String) (t : Int) :
    cmGet (cmSet m k t) k = t := by
  unfold cmSet
  split
  case isTrue h =>
    induction m with
    | nil => simp at h
    | cons p rest ih =>
      by_cases hk : p.1 = k
      · simp only [List.map_cons, if_pos hk]
        rw [cmGet_cons]
        simp
      · simp only [List.map_cons, if_neg hk]
        rw [cmGet_cons, if_neg hk]
        apply ih
        rwa [List.find?_cons_of_neg] at h
        simp [hk]
  case isFalse h =>
    induction m with
    | nil => rw [List.nil_append, cmGet_cons]; simp
    | cons p rest ih =>
      have hk : ¬ p.1 = k := by
        intro hpk
        exact h (by rw [List.find?_cons_of_pos] <;> simp [hpk])
      rw [List.cons_append, cmGet_cons, if_neg hk]
      apply ih
      intro hsome
      apply h
      rwa [List.find?_cons_of_neg]
      simp [hk]

/-- Overwriting a value at a different key does not change a read. -/
theorem cmGet_map_other (m : CMap) (kw kr : String) (t : Int) (h : kw ≠ kr) :
    cmGet (m.map (fun p => if p.1 = kw then (kw, t) else p)) kr = cmGet m kr := by
  induction m with
  | nil => rfl
  | cons p rest ih =>
    by_cases hk : p.1 = kw
    · simp only [List.map_cons, if_pos hk]
      rw [cmGet_cons, cmGet_cons, if_neg (by simpa using h), if_neg (by rw [hk]; exact h)]
      exact ih
    · simp only [List.map_cons, if_neg hk]
      rw [cmGet_cons, cmGet_cons]
      by_cases hr : p.1 = kr
      · simp [hr]
      · rw [if_neg hr, if_neg hr]
        exact ih

/-- Appending a binding for a different key does not change a read. -/
theorem cmGet_append_single (m : CMap) (kw kr : String) (t : Int) (h : kw ≠ kr) :
    cmGet (m ++ [(kw, t)]) kr = cmGet m kr := by
  induction m with
  | nil =>
    rw [List.nil_append, cmGet_cons, if_neg (by simpa using h)]
  | cons p rest ih =>
    rw [List.cons_append, cmGet_cons, cmGet_cons]
    by_cases hr : p.1 = kr
    · simp [hr]
    · rw [if_neg hr, if_neg hr]
      exact ih

/-- Writing a different key leaves a read unchanged. -/
theorem cmGet_cmSet_other (m : CMap) (kw kr : String) (t : Int) (h : kw ≠ kr) :
    cmGet (cmSet m kw t) kr = cmGet m kr := by
  unfold cmSet
  split
  · exact cmGet_map_other m kw kr t h
  · exact cmGet_append_single m kw kr t h

/-- `shouldSendAlert` with an integer cooldown of at least one minute fires
exactly when the cooldown has elapsed since the recorded last fire, and then
records the current time. -/
theorem shouldSendAlert_spec (mlt : Int) (hm : 1 ≤ mlt) (m : CMap) (key : String)
    (now : Int) :
    shouldSendAlert (Q.ofInt mlt) m key now =
      if now - cmGet m key < mlt * 60000 then (false, m)
      else (true, cmSet m key now) := by
  have h0n : (0 : Q).n = 0 := rfl
  have h0d : (0 : Q).d = 1 := rfl
  have h1n : (1 : Q).n = 1 := rfl
  have h1d : (1 : Q).d = 1 := rfl
  have hbase : (if Q.qeq (Q.ofInt mlt) 0 then DEFAULT_ALERT_RULES.notifyCooldownMinutes
      else Q.ofInt mlt) = Q.ofInt mlt := by
    rw [if_neg]
    simp only [Q.qeq, Q.ofInt, h0n, h0d, beq_iff_eq, mul_one, zero_mul]
    omega
  have hmax : Q.qmax 1 (Q.ofInt mlt) = Q.ofInt mlt := by
    unfold Q.qmax
    by_cases h1 : Q.qlt 1 (Q.ofInt mlt) = true
    · rw [if_pos h1]
    · rw [if_neg h1]
      simp only [Q.qlt, Q.ofInt, h1n, h1d, mul_one, one_mul, decide_eq_true_eq] at h1
      have : mlt = 1 := by omega
      subst this
      rfl
  have hcool : Q.mul (Q.ofInt mlt) ⟨60 * 1000, 1⟩ = ⟨mlt * 60000, 1⟩ := by
    simp [Q.mul, Q.ofInt]
  simp only [shouldSendAlert, hbase, hmax, hcool]
  by_cases hc : now - cmGet m key < mlt * 60000
  · rw [if_pos hc, if_pos]
    simp only [Q.qlt, Q.ofInt, mul_one, decide_eq_true_eq]
    exact hc
  · rw [if_neg hc, if_neg]
    simp only [Q.qlt, Q.ofInt, mul_one, decide_eq_true_eq]
    exact hc

/-- Invariant for the cooldown chain: prefixing the recorded last-fire time of
the key, all successive fire times of a run are spaced by the cooldown. -/
theorem runAlerts_fire_inv (mlt : Int) (hm : 1 ≤ mlt) (key : String) :
    ∀ (events : List (String × Int)) (m0 : CMap),
      List.Chain' (fun t1 t2 => mlt * 60000 ≤ t2 - t1)
        (cmGet m0 key :: fireTimes key (runAlerts (Q.ofInt mlt) m0 events))
  | [], m0 => by simp [runAlerts, fireTimes]
  | (k, t) :: rest, m0 => by
    rw [runAlerts, shouldSendAlert_spec mlt hm m0 k t]
    by_cases hc : t - cmGet m0 k < mlt * 60000
    · rw [if_pos hc]
      have h2 := runAlerts_fire_inv mlt hm key rest m0
      simpa [fireTimes] using h2
    · rw [if_neg hc]
      by_cases hk : k = key
      · subst hk
        have h2 := runAlerts_fire_inv mlt hm k rest (cmSet m0 k t)
        rw [cmGet_cmSet_self] at h2
        simp only [fireTimes, List.filter_cons]
        simp only [decide_True, Bool.and_true, decide_eq_true_eq]
        rw [if_pos (by simp)]
        simp only [List.map_cons]
        refine List.Chain'.cons ?_ ?_
        · omega
        · simpa [fireTimes] using h2
      · have h2 := runAlerts_fire_inv mlt hm key rest (cmSet m0 k t)
        rw [cmGet_cmSet_other m0 k key t hk] at h2
        simp only [fireTimes, List.filter_cons]
        rw [if_neg (by simp [hk])]
        simpa [fireTimes] using h2

/-- C9: for every alert key, two consecutive fires of `shouldSendAlert` with a
cooldown of `mlt` minutes (`mlt ≥ 1`) are at least `mlt` minutes of wall time
apart: over any run of calls from any initial cooldown map, the list of times
at which the key fired is a chain with gaps of at least `mlt * 60000` ms. -/
theorem c9_cooldown_spacing (mlt : Int) (hm : 1 ≤ mlt) (m0 : CMap)
    (events : List (String × Int)) (key : String) :
    List.Chain' (fun t1 t2 => mlt * 60000 ≤ t2 - t1)
      (fireTimes key (runAlerts (Q.ofInt mlt) m0 events)) :=
  (runAlerts_fire_inv mlt hm key events m0).tail

/-- A concrete 240-minute-cooldown run: three drop alerts at 100000000 ms,
100001000 ms and 120000000 ms; the second is suppressed and the recorded fire
times are spaced by at least 240 minutes. -/
theorem c9_cooldown_spacing_witness :
    (1 : Int) ≤ 240 ∧
    fireTimes "drop:i1" (runAlerts (Q.ofInt 240) []
        [("drop:i1", 100000000), ("drop:i1", 100001000), ("drop:i1", 120000000)])
      = [100000000, 120000000] ∧
    List.Chain' (fun t1 t2 => (240 : Int) * 60000 ≤ t2 - t1)
      (fireTimes "drop:i1" (runAlerts (Q.ofInt 240) []
        [("drop:i1", 100000000), ("drop:i1", 100001000), ("drop:i1", 120000000)])) :=
  ⟨by decide, by decide,
   c9_cooldown_spacing 240 (by decide) []
     [("drop:i1", 100000000), ("drop:i1", 100001000), ("drop:i1", 120000000)] "drop:i1"⟩

/-- Every candidate an offer yields carries the fixed JSON-LD score 95. -/
theorem offerCand_score (pc : String) (o : JsonVal) (c : Cand)
    (h : offerCand pc o = some c) : c.score = 95 := by
  simp only [offerCand] at h
  split at h
  · exact absurd h (by simp)
  · split at h
    · exact absurd h (by simp)
    · split at h
      · rw [Option.some_inj] at h
        subst h
        rfl
      · exact absurd h (by simp)

/-- Candidates of one object node's own offers all score 95. -/
theorem offersCands_score (pc : String) (fs : List (String × JsonVal)) :
    ∀ c ∈ offersCands pc fs, c.score = 95 := by
  intro c hc
  unfold offersCands at hc
  split at hc
  · split at hc
    · obtain ⟨o, _, ho⟩ := List.mem_filterMap.mp hc
      exact offerCand_score pc o c ho
    · simp at hc
  · simp at hc

mutual

/-- All JSON-LD candidates of a document node score 95. -/
theorem ldCands_score (pc : String) : ∀ (v : JsonVal) (c : Cand), c ∈ ldCands pc v → c.score = 95
  | .obj fs, c, hc => by
    rw [ldCands] at hc
    rcases List.mem_append.mp hc with h | h
    · exact offersCands_score pc fs c h
    · exact ldFields_score pc fs c h
  | .arr xs, c, hc => ldElems_score pc xs c (by rwa [ldCands] at hc)
  | .null, c, hc => by simp [ldCands] at hc
  | .bool _, c, hc => by simp [ldCands] at hc
  | .num _, c, hc => by simp [ldCands] at hc
  | .str _, c, hc => by simp [ldCands] at hc

/-- All JSON-LD candidates of a list of array elements score 95. -/
theorem ldElems_score (pc : String) : ∀ (xs : List JsonVal) (c : Cand), c ∈ ldElems pc xs → c.score = 95
  | [], c, hc => by simp [ldElems] at hc
  | v :: rest, c, hc => by
    rw [ldElems] at hc
    rcases List.mem_append.mp hc with h | h
    · exact ldElems_score pc rest c h
    · exact ldCands_score pc v c h

/-- All JSON-LD candidates below an object's fields score 95. -/
theorem ldFields_score (pc : String) : ∀ (fs : List (String × JsonVal)) (c : Cand), c ∈ ldFields pc fs → c.score = 95
  | [], c, hc => by simp [ldFields] at hc
  | (_, v) :: rest, c, hc => by
    rw [ldFields] at hc
    rcases List.mem_append.mp hc with h | h
    · exact ldFields_score pc rest c h
    · exact ldCands_score pc v c h

end

/-- All candidates `extractFromJsonLd` emits score 95. -/
theorem extractFromJsonLd_score (scripts : List JsonVal) (pc : String) :
    ∀ c ∈ extractFromJsonLd scripts pc, c.score = 95 := by
  intro c hc
  obtain ⟨v, _, hv⟩ := List.mem_flatMap.mp hc
  exact ldCands_score pc v c hv

/-- Membership through a stable score insertion. -/
theorem insertByScore_mem (c x : Cand) : ∀ (l : List Cand),
    x ∈ insertByScore c l ↔ x = c ∨ x ∈ l
  | [] => by simp [insertByScore]
  | y :: ys => by
    rw [insertByScore]
    split
    · simp only [List.mem_cons]
    · rw [List.mem_cons, insertByScore_mem c x ys, List.mem_cons]
      tauto

/-- The stable insertion keeps the list sorted by non-increasing score. -/
theorem insertByScore_sorted (c : Cand) : ∀ (l : List Cand),
    List.Pairwise (fun a b => b.score ≤ a.score) l →
    List.Pairwise (fun a b => b.score ≤ a.score) (insertByScore c l)
  | [], _ => by simp [insertByScore]
  | y :: ys, h => by
    rw [insertByScore]
    rw [List.pairwise_cons] at h
    split
    case isTrue hgt =>
      rw [List.pairwise_cons]
      refine ⟨?_, List.pairwise_cons.mpr h⟩
      intro z hz
      rcases List.mem_cons.mp hz with rfl | hz'
      · omega
      · have := h.1 z hz'
        omega
    case isFalse hle =>
      rw [List.pairwise_cons]
      constructor
      · intro z hz
        rcases (insertByScore_mem c z ys).mp hz with rfl | hz'
        · omega
        · exact h.1 z hz'
      · exact insertByScore_sorted c ys h.2

/-- The sort fold keeps sortedness. -/
theorem foldl_insert_sorted : ∀ (l acc : List Cand),
    List.Pairwise (fun a b => b.score ≤ a.score) acc →
    List.Pairwise (fun a b => b.score ≤ a.score)
      (l.foldl (fun acc c => insertByScore c acc) acc)
  | [], _, h => h
  | c :: cs, acc, h => foldl_insert_sorted cs _ (insertByScore_sorted c acc h)

/-- The sort fold loses no member. -/
theorem foldl_insert_mem : ∀ (l acc : List Cand) (x : Cand),
    x ∈ l ∨ x ∈ acc → x ∈ l.foldl (fun acc c => insertByScore c acc) acc
  | [], _, x, h => by
    rcases h with h | h
    · simp at h
    · exact h
  | c :: cs, acc, x, h => by
    apply foldl_insert_mem cs _ x
    rcases h with h | h
    · rcases List.mem_cons.mp h with rfl | h'
      · exact Or.inr ((insertByScore_mem x x acc).mpr (Or.inl rfl))
      · exact Or.inl h'
    · exact Or.inr ((insertByScore_mem c x acc).mpr (Or.inr h))

/-- The head of a score-sorted list dominates every member. -/
theorem sorted_head_max (l : List Cand)
    (h : List.Pairwise (fun a b => b.score ≤ a.score) l)
    (x : Cand) (hx : x ∈ l) : ∃ b, l.head? = some b ∧ x.score ≤ b.score := by
  cases l with
  | nil => simp at hx
  | cons y ys =>
    refine ⟨y, rfl, ?_⟩
    rcases List.mem_cons.mp hx with rfl | hx'
    · exact le_refl _
    · exact (List.pairwise_cons.mp h).1 x hx'

/-- One dedup step keeps, for every score already dominated in the
accumulator, a dominating entry. -/
theorem dedupInsert_dominates (acc : List Cand) (c x : Cand)
    (h : ∃ e ∈ acc, x.score ≤ e.score) :
    ∃ e ∈ dedupInsert acc c, x.score ≤ e.score := by
  obtain ⟨e, he, hse⟩ := h
  unfold dedupInsert
  split
  · by_cases hrep : (dedupKeyEq c e && c.score > e.score) = true
    · refine ⟨c, List.mem_map.mpr ⟨e, he, by rw [if_pos hrep]⟩, ?_⟩
      simp only [Bool.and_eq_true, decide_eq_true_eq] at hrep
      omega
    · exact ⟨e, List.mem_map.mpr ⟨e, he, by rw [if_neg hrep]⟩, hse⟩
  · exact ⟨e, List.mem_append.mpr (Or.inl he), hse⟩

/-- One dedup step leaves an entry dominating the inserted candidate. -/
theorem dedupInsert_self (acc : List Cand) (c : Cand) :
    ∃ e ∈ dedupInsert acc c, c.score ≤ e.score := by
  unfold dedupInsert
  split
  case isTrue hany =>
    obtain ⟨a, ha, hkey⟩ := List.any_eq_true.mp hany
    by_cases hgt : c.score > a.score
    · refine ⟨c, List.mem_map.mpr ⟨a, ha, ?_⟩, le_refl _⟩
      rw [if_pos]
      rw [Bool.and_eq_true, decide_eq_true_eq]
      exact ⟨hkey, hgt⟩
    · refine ⟨a, List.mem_map.mpr ⟨a, ha, ?_⟩, by omega⟩
      rw [if_neg]
      rw [Bool.and_eq_true, decide_eq_true_eq]
      tauto
  case isFalse =>
    exact ⟨c, List.mem_append.mpr (Or.inr (List.mem_singleton.mpr rfl)), le_refl _⟩

/-- The dedup fold keeps a dominating entry for every input candidate. -/
theorem foldl_dedup_dominates : ∀ (l acc : List Cand) (x : Cand),
    (x ∈ l ∨ ∃ e ∈ acc, x.score ≤ e.score) →
    ∃ e ∈ l.foldl dedupInsert acc, x.score ≤ e.score
  | [], _, x, h => by
    rcases h with h | h
    · simp at h
    · exact h
  | c :: cs, acc, x, h => by
    apply foldl_dedup_dominates cs _ x
    rcases h with h | h
    · rcases List.mem_cons.mp h with rfl | h'
      · exact Or.inr (dedupInsert_self acc x)
      · exact Or.inl h'
    · exact Or.inr (dedupInsert_dominates acc c x h)

/-- The top-ranked candidate scores at least as high as every input
candidate. -/
theorem rankCandidates_head_max (l : List Cand) (x : Cand) (hx : x ∈ l) :
    ∃ b, (rankCandidates l).head? = some b ∧ x.score ≤ b.score := by
  unfold rankCandidates
  obtain ⟨e, he, hse⟩ := foldl_dedup_dominates l [] x (Or.inl hx)
  have hmem := foldl_insert_mem _ [] e (Or.inl he)
  have hsorted := foldl_insert_sorted (l.foldl dedupInsert []) [] (by simp)
  obtain ⟨b, hb, hbs⟩ := sorted_head_max _ hsorted e hmem
  exact ⟨b, hb, le_trans hse hbs⟩

/-- C2 (amended): every JSON-LD offers candidate carries score exactly 95,
and on a non-Amazon host any document with at least one JSON-LD candidate
yields a price with reported confidence in `[95, 100]`; the top-ranked
candidate dominates every candidate by score, so a JSON-LD pair can lose
the top spot to an equally-scored earlier JSON-LD pair or to a
higher-scored candidate of any source, not only to a higher-scored
JSON-LD pair. -/
theorem c2_jsonld_top (scripts : List JsonVal) (pc : String)
    (rawCands : List Cand) (customSelector : Option String)
    (customHits selectorHits : List (String × String)) (bodyTexts : List String)
    (availability : Availability)
    (hne : extractFromJsonLd scripts pc ≠ []) :
    (∀ c ∈ extractFromJsonLd scripts pc, c.score = 95) ∧
    (parseHtml scripts rawCands customSelector customHits selectorHits bodyTexts
        false pc availability).price ≠ none ∧
    95 ≤ (parseHtml scripts rawCands customSelector customHits selectorHits bodyTexts
        false pc availability).confidence ∧
    (parseHtml scripts rawCands customSelector customHits selectorHits bodyTexts
        false pc availability).confidence ≤ 100 := by
  refine ⟨extractFromJsonLd_score scripts pc, ?_⟩
  obtain ⟨c0, hc0⟩ := List.exists_mem_of_ne_nil _ hne
  have h95 : c0.score = 95 := extractFromJsonLd_score scripts pc c0 hc0
  have hmem : c0 ∈ ((extractFromJsonLd scripts pc ++ rawCands ++
        (match customSelector with
         | some s => if s ≠ "" then
             List.filterMap (fun h => buildCandidate h.2 h.1 "custom" pc 88) customHits
           else []
         | none => [])) ++
      List.filterMap (fun h => buildCandidate h.2 h.1 "selector" pc 60) selectorHits ++
      List.filterMap (fun txt => buildCandidate txt "" "text" pc 30)
        (List.take 120 (List.filterMap priceLikeFragment bodyTexts))) :=
    List.mem_append_left _ (List.mem_append_left _
      (List.mem_append_left _ (List.mem_append_left _ hc0)))
  obtain ⟨b, hb, hbs⟩ := rankCandidates_head_max _ c0 hmem
  simp only [parseHtml, amazonScope, Bool.not_false, if_true, Bool.false_and,
    Bool.false_eq_true, if_false]
  rw [hb]
  refine ⟨by simp, ?_, ?_⟩ <;> simp [normalizeConfidence] <;> omega

/-- C2 counterexample: a document whose single JSON-LD script holds two
offers pairs, 100 USD and 200 USD.  Both become candidates with score 95,
so no higher-scored JSON-LD pair exists for either; yet the 200 USD pair
is not the returned result — the earlier pair wins the tie. -/
theorem c2_counterexample :
    (extractFromJsonLd [JsonVal.obj [("offers", JsonVal.arr [
        JsonVal.obj [("price", JsonVal.num ⟨100, 0⟩), ("priceCurrency", JsonVal.str "USD")],
        JsonVal.obj [("price", JsonVal.num ⟨200, 0⟩), ("priceCurrency", JsonVal.str "USD")]])]]
      "USD").map (fun c => (c.price, c.score))
      = [(⟨100, 0⟩, 95), (⟨200, 0⟩, 95)] ∧
    (parseHtml [JsonVal.obj [("offers", JsonVal.arr [
        JsonVal.obj [("price", JsonVal.num ⟨100, 0⟩), ("priceCurrency", JsonVal.str "USD")],
        JsonVal.obj [("price", JsonVal.num ⟨200, 0⟩), ("priceCurrency", JsonVal.str "USD")]])]]
      [] none [] [] [] false "USD" ⟨"unknown", 0, "", none⟩).price = some ⟨100, 0⟩ ∧
    ¬ (parseHtml [JsonVal.obj [("offers", JsonVal.arr [
        JsonVal.obj [("price", JsonVal.num ⟨100, 0⟩), ("priceCurrency", JsonVal.str "USD")],
        JsonVal.obj [("price", JsonVal.num ⟨200, 0⟩), ("priceCurrency", JsonVal.str "USD")]])]]
      [] none [] [] [] false "USD" ⟨"unknown", 0, "", none⟩).price = some ⟨200, 0⟩ := by
  decide

/-- A single-offer document on a non-Amazon host: the JSON-LD extractor is
non-empty and the result is a price with confidence between 95 and 100. -/
theorem c2_jsonld_top_witness :
    extractFromJsonLd [JsonVal.obj [("offers", JsonVal.obj [
        ("price", JsonVal.num ⟨50, 0⟩), ("priceCurrency", JsonVal.str "USD")])]]
      "USD" ≠ [] ∧
    ((parseHtml [JsonVal.obj [("offers", JsonVal.obj [
        ("price", JsonVal.num ⟨50, 0⟩), ("priceCurrency", JsonVal.str "USD")])]]
      [] none [] [] [] false "USD" ⟨"unknown", 0, "", none⟩).price ≠ none ∧
    95 ≤ (parseHtml [JsonVal.obj [("offers", JsonVal.obj [
        ("price", JsonVal.num ⟨50, 0⟩), ("priceCurrency", JsonVal.str "USD")])]]
      [] none [] [] [] false "USD" ⟨"unknown", 0, "", none⟩).confidence ∧
    (parseHtml [JsonVal.obj [("offers", JsonVal.obj [
        ("price", JsonVal.num ⟨50, 0⟩), ("priceCurrency", JsonVal.str "USD")])]]
      [] none [] [] [] false "USD" ⟨"unknown", 0, "", none⟩).confidence ≤ 100) :=
  ⟨by decide,
   (c2_jsonld_top [JsonVal.obj [("offers", JsonVal.obj [
        ("price", JsonVal.num ⟨50, 0⟩), ("priceCurrency", JsonVal.str "USD")])]]
      "USD" [] none [] [] [] ⟨"unknown", 0, "", none⟩ (by decide)).2⟩

/-- Filtering away a character the list does not hold changes nothing. -/
theorem filter_ne_of_not_contains (l : List Char) (c : Char)
    (h : l.contains c = false) : l.filter (· ≠ c) = l := by
  apply List.filter_eq_self.mpr
  intro a ha
  simp only [ne_eq, decide_not, Bool.not_eq_false']
  cases hac : decide (a = c)
  · rfl
  · exfalso
    have hae := of_decide_eq_true hac
    subst hae
    have := List.elem_eq_true_of_mem ha
    rw [show l.contains a = l.elem a from rfl, this] at h
    cases h

/-- A filter keeps a list free of a character it was already free of. -/
theorem contains_filter_false (l : List Char) (p : Char → Bool) (c : Char)
    (h : l.contains c = false) : (l.filter p).contains c = false := by
  cases hcc : (l.filter p).contains c
  · rfl
  · exfalso
    have h1 : c ∈ l.filter p := List.mem_of_elem_eq_true hcc
    have h2 := List.elem_eq_true_of_mem (List.mem_of_mem_filter h1)
    rw [show l.contains c = l.elem c from rfl, h2] at h
    cases h

/-- The source's separator resolution coincides with the spec's rule
selection followed by the corresponding transformation. -/
theorem normalize_refines_spec (rawNum currencyHint : String) :
    normalizePriceString rawNum currencyHint = normalizePriceSpec rawNum currencyHint := by
  simp only [normalizePriceString, normalizePriceSpec]
  by_cases hemp : (rawNum.data.filter (fun c => !jsWhitespace c)).isEmpty
  · simp [hemp]
  · simp only [hemp, Bool.false_eq_true, if_false]
    congr 2
    set s := rawNum.data.filter (fun c => !jsWhitespace c) with hs
    by_cases hd : s.contains '.' = true <;> by_cases hc : s.contains ',' = true
    · simp only [specSepChoice, hd, hc, Bool.and_self, if_true]
      by_cases hlt : lastIdxOf s ',' > lastIdxOf s '.'
      · simp [hlt, specApplySep]
      · simp [hlt, specApplySep]
    · rw [Bool.not_eq_true] at hc
      simp only [specSepChoice, hd, hc, Bool.and_false, Bool.false_eq_true, if_false,
        if_true]
      by_cases htk : (decide (currencyHint = "TRY") &&
          decide ((splitOnChar '.' s).getLast?.map List.length = some 3)) = true
      · simp only [htk, if_true, specApplySep]
        rw [filter_ne_of_not_contains (s.filter (· ≠ '.')) ','
          (contains_filter_false s _ ',' hc)]
      · simp only [htk, Bool.false_eq_true, if_false, specApplySep]
        rw [filter_ne_of_not_contains s ',' hc]
    · rw [Bool.not_eq_true] at hd
      simp only [specSepChoice, hd, hc, Bool.false_and, Bool.false_eq_true, if_false,
        if_true]
      by_cases hcd : (decide (currencyHint = "TRY") || endsCommaTwoDigits s) = true
      · simp only [hcd, if_true, specApplySep]
        rw [filter_ne_of_not_contains s '.' hd]
      · simp only [hcd, Bool.false_eq_true, if_false, specApplySep]
        rw [filter_ne_of_not_contains s '.' hd]
    · rw [Bool.not_eq_true] at hd hc
      simp only [specSepChoice, hd, hc, Bool.false_and, Bool.false_eq_true, if_false,
        specApplySep]
      rw [filter_ne_of_not_contains s '.' hd, filter_ne_of_not_contains s ',' hc]

/-- C7 (amended): `normalizePriceString` resolves the dot/comma separators
exactly by the spec's rules — proved as an equality with the reference
function worded after the spec — and rejects a non-finite parse; on the S4
text "1.299,90 TL" the currency detector yields TRY and the built
candidate carries price 1299.90 with currency TRY.  Non-positive results,
however, are returned by `normalizePriceString` and rejected only by its
callers. -/
theorem c7_separator_rules :
    (∀ rawNum currencyHint : String,
      normalizePriceString rawNum currencyHint = normalizePriceSpec rawNum currencyHint) ∧
    detectCurrencyFromText "1.299,90 TL" "USD" = "TRY" ∧
    normalizePriceString "1.299,90" "TRY" = some ⟨129990, 2⟩ ∧
    (buildCandidate "1.299,90 TL" ".prc-dsc" "selector" "TRY" 60).map
      (fun c => (c.price, c.currency)) = some (⟨129990, 2⟩, "TRY") :=
  ⟨normalize_refines_spec, by decide, by decide, by decide⟩

/-- C7 counterexample to the rejection clause: a non-positive result is not
rejected by `normalizePriceString` — zero and negative inputs parse and are
returned — although the candidate builder rejects them afterwards. -/
theorem c7_counterexample :
    normalizePriceString "0" "USD" = some ⟨0, 0⟩ ∧
    normalizePriceString "-3" "USD" = some ⟨-3, 0⟩ ∧
    buildCandidate "$0" ".p" "selector" "USD" 60 = none := by
  decide

/-- Properties of the ten digit characters the renderer emits. -/
theorem digitChar_facts (c : Char)
    (h : c ∈ ['0', '1', '2', '3', '4', '5', '6', '7', '8', '9']) :
    c.isDigit = true ∧ jsWhitespace c = false ∧ c ≠ ',' ∧ c ≠ '.' ∧ c ≠ '-' ∧
    c ≠ '+' ∧ c ≠ 'I' ∧ c ≠ 'e' ∧ c ≠ 'E' := by
  fin_cases h <;> exact ⟨by decide, by decide, by decide, by decide, by decide,
    by decide, by decide, by decide, by decide⟩

/-- The character the renderer emits for one digit value. -/
theorem ofNat_digit_mem (k : Nat) (hk : k < 10) :
    Char.ofNat (48 + k) ∈ ['0', '1', '2', '3', '4', '5', '6', '7', '8', '9'] := by
  interval_cases k <;> decide

/-- Code of the character the renderer emits for one digit value. -/
theorem ofNat_digit_toNat (k : Nat) (hk : k < 10) :
    (Char.ofNat (48 + k)).toNat = 48 + k := by
  interval_cases k <;> decide

/-- Every character `natToDigitsAux` produces is a digit character. -/
theorem natToDigitsAux_mem : ∀ (fuel n : Nat) (acc : List Char),
    (∀ c ∈ acc, c ∈ ['0', '1', '2', '3', '4', '5', '6', '7', '8', '9']) →
    ∀ c ∈ natToDigitsAux fuel n acc,
      c ∈ ['0', '1', '2', '3', '4', '5', '6', '7', '8', '9']
  | 0, _, _, hacc => hacc
  | fuel + 1, n, acc, hacc => by
    rw [natToDigitsAux]
    split
    case isTrue h =>
      intro c hc
      rcases List.mem_cons.mp hc with rfl | hc'
      · exact ofNat_digit_mem n h
      · exact hacc c hc'
    case isFalse h =>
      apply natToDigitsAux_mem fuel (n / 10)
      intro c hc
      rcases List.mem_cons.mp hc with rfl | hc'
      · exact ofNat_digit_mem (n % 10) (Nat.mod_lt n (by omega))
      · exact hacc c hc'

/-- Every character of a rendered natural number is a digit character. -/
theorem natToDigits_mem (n : Nat) :
    ∀ c ∈ natToDigits n, c ∈ ['0', '1', '2', '3', '4', '5', '6', '7', '8', '9'] :=
  natToDigitsAux_mem (n + 1) n [] (by simp)

/-- Folding the digit-value step over the produced digits recovers the
number (given enough fuel). -/
theorem natToDigitsAux_foldl : ∀ (fuel n : Nat) (acc : List Char), n < fuel →
    List.foldl (fun a c => a * 10 + (c.toNat - 48)) 0 (natToDigitsAux fuel n acc) =
    List.foldl (fun a c => a * 10 + (c.toNat - 48)) n acc
  | 0, _, _, h => by omega
  | fuel + 1, n, acc, h => by
    rw [natToDigitsAux]
    split
    case isTrue h10 =>
      rw [List.foldl_cons, ofNat_digit_toNat n h10]
      norm_num
    case isFalse h10 =>
      rw [natToDigitsAux_foldl fuel (n / 10) _ (by omega)]
      rw [List.foldl_cons, ofNat_digit_toNat (n % 10) (Nat.mod_lt n (by omega))]
      congr 1
      omega

/-- The digit rendering of a natural number reparses to the number. -/
theorem digitsVal_natToDigits (n : Nat) : digitsVal (natToDigits n) = n := by
  unfold digitsVal natToDigits
  rw [natToDigitsAux_foldl (n + 1) n [] (by omega)]
  rfl

/-- The digit rendering is never empty. -/
theorem natToDigitsAux_ne_nil : ∀ (fuel n : Nat) (acc : List Char), n < fuel →
    natToDigitsAux fuel n acc ≠ []
  | 0, _, _, h => by omega
  | fuel + 1, n, acc, h => by
    rw [natToDigitsAux]
    split
    case isTrue h10 => exact List.cons_ne_nil _ _
    case isFalse h10 => exact natToDigitsAux_ne_nil fuel (n / 10) _ (by omega)

/-- Leading zeros do not change a digit string's value. -/
theorem digitsVal_replicate_zero (k : Nat) (ds : List Char) :
    digitsVal (List.replicate k '0' ++ ds) = digitsVal ds := by
  unfold digitsVal
  rw [List.foldl_append]
  congr 1
  induction k with
  | zero => rfl
  | succ k ih => rw [List.replicate_succ, List.foldl_cons]; simpa using ih

/-- `takeWhile`/`dropWhile` on a list the predicate fully accepts. -/
theorem takeWhile_all (p : Char → Bool) : ∀ (xs : List Char),
    (∀ x ∈ xs, p x = true) → xs.takeWhile p = xs ∧ xs.dropWhile p = []
  | [], _ => ⟨rfl, rfl⟩
  | x :: xs, h => by
    have hx := h x (List.mem_cons_self x xs)
    have ih := takeWhile_all p xs (fun y hy => h y (List.mem_cons_of_mem x hy))
    rw [List.takeWhile_cons, List.dropWhile_cons, hx]
    simp only [if_true]
    exact ⟨by rw [ih.1], ih.2⟩

/-- `takeWhile`/`dropWhile` split exactly at the first rejected
character. -/
theorem takeWhile_boundary (p : Char → Bool) (y : Char) (ys : List Char)
    (hy : p y = false) : ∀ (xs : List Char), (∀ x ∈ xs, p x = true) →
    (xs ++ y :: ys).takeWhile p = xs ∧ (xs ++ y :: ys).dropWhile p = y :: ys
  | [], _ => by
    rw [List.nil_append, List.takeWhile_cons, List.dropWhile_cons, hy]
    exact ⟨rfl, rfl⟩
  | x :: xs, h => by
    have hx := h x (List.mem_cons_self x xs)
    have ih := takeWhile_boundary p y ys hy xs (fun z hz => h z (List.mem_cons_of_mem x hz))
    rw [List.cons_append, List.takeWhile_cons, List.dropWhile_cons, hx]
    simp only [if_true]
    exact ⟨by rw [ih.1], ih.2⟩

/-- The canonicalization steps preserve the decimal's value. -/
theorem canonSteps_value : ∀ (e : Nat) (m : Int),
    (canonSteps m e).num * 10 ^ e = m * 10 ^ (canonSteps m e).exp
  | 0, m => rfl
  | e + 1, m => by
    rw [canonSteps]
    split
    case isTrue h =>
      have ih := canonSteps_value e (m / 10)
      have hm : m / 10 * 10 = m := Int.ediv_mul_cancel (Int.dvd_of_emod_eq_zero h)
      calc (canonSteps (m / 10) e).num * 10 ^ (e + 1)
          = (canonSteps (m / 10) e).num * 10 ^ e * 10 := by ring
        _ = m / 10 * 10 ^ (canonSteps (m / 10) e).exp * 10 := by rw [ih]
        _ = m / 10 * 10 * 10 ^ (canonSteps (m / 10) e).exp := by ring
        _ = m * 10 ^ (canonSteps (m / 10) e).exp := by rw [hm]
    case isFalse h => rfl

/-- A decimal's canonical form has the same value. -/
theorem canon_veq (n : Dec) : Dec.veq n.canon n = true := by
  unfold Dec.veq Dec.canon
  rw [beq_iff_eq]
  exact canonSteps_value n.exp n.num

theorem parse_digits_only (w : List Char) (hwne : w ≠ [])
    (hwmem : ∀ c ∈ w, c ∈ ['0', '1', '2', '3', '4', '5', '6', '7', '8', '9']) :
    parseFloatDec ⟨w⟩ = some ⟨(digitsVal w : Int), 0⟩ := by
  obtain ⟨wh, wt, rfl⟩ : ∃ wh wt, w = wh :: wt := by
    cases w with
    | nil => exact absurd rfl hwne
    | cons a l => exact ⟨a, l, rfl⟩
  have hf := digitChar_facts wh (hwmem wh (List.mem_cons_self _ _))
  have hwdig : ∀ c ∈ wh :: wt, Char.isDigit c = true :=
    fun c hc => (digitChar_facts c (hwmem c hc)).1
  have h1 : List.dropWhile jsWhitespace (wh :: wt) = wh :: wt := by
    rw [List.dropWhile_cons, hf.2.1]
    simp
  have h2 : (match wh :: wt with
      | '-' :: rest => ((-1 : Int), rest)
      | '+' :: rest => ((1 : Int), rest)
      | x => ((1 : Int), wh :: wt)) = ((1 : Int), wh :: wt) := by
    split
    next rest heq =>
      rw [List.cons.injEq] at heq
      exact absurd heq.1 hf.2.2.2.2.1
    next rest heq =>
      rw [List.cons.injEq] at heq
      exact absurd heq.1 hf.2.2.2.2.2.1
    next => rfl
  have htw := (takeWhile_all Char.isDigit (wh :: wt) hwdig).1
  have hdw := (takeWhile_all Char.isDigit (wh :: wt) hwdig).2
  have hpre : List.isPrefixOf ['I', 'n', 'f', 'i', 'n', 'i', 't', 'y'] (wh :: wt) = false := by
    show ('I' == wh && List.isPrefixOf ['n', 'f', 'i', 'n', 'i', 't', 'y'] wt) = false
    have hne : ('I' == wh) = false := by
      rw [beq_eq_false_iff_ne]
      exact fun h => hf.2.2.2.2.2.2.1 h.symm
    rw [hne, Bool.false_and]
  simp only [parseFloatDec, h1, h2, hpre, htw, hdw, Bool.false_eq_true, if_false,
    List.isEmpty_cons, List.isEmpty_nil, Bool.false_and, Bool.and_false, one_mul,
    List.append_nil, pow_zero, mul_one]
  norm_num

theorem parse_digits_frac (w f : List Char) (hwne : w ≠ []) (hfne : f ≠ [])
    (hwmem : ∀ c ∈ w, c ∈ ['0', '1', '2', '3', '4', '5', '6', '7', '8', '9'])
    (hfmem : ∀ c ∈ f, c ∈ ['0', '1', '2', '3', '4', '5', '6', '7', '8', '9']) :
    parseFloatDec ⟨w ++ '.' :: f⟩ = some ⟨(digitsVal (w ++ f) : Int), f.length⟩ := by
  obtain ⟨wh, wt, rfl⟩ : ∃ wh wt, w = wh :: wt := by
    cases w with
    | nil => exact absurd rfl hwne
    | cons a l => exact ⟨a, l, rfl⟩
  have hf := digitChar_facts wh (hwmem wh (List.mem_cons_self _ _))
  have hwdig : ∀ c ∈ wh :: wt, Char.isDigit c = true :=
    fun c hc => (digitChar_facts c (hwmem c hc)).1
  have hfdig : ∀ c ∈ f, Char.isDigit c = true :=
    fun c hc => (digitChar_facts c (hfmem c hc)).1
  have h1 : List.dropWhile jsWhitespace (wh :: (wt ++ '.' :: f)) = wh :: (wt ++ '.' :: f) := by
    rw [List.dropWhile_cons, hf.2.1]
    simp
  have h2 : (match wh :: (wt ++ '.' :: f) with
      | '-' :: rest => ((-1 : Int), rest)
      | '+' :: rest => ((1 : Int), rest)
      | x => ((1 : Int), wh :: (wt ++ '.' :: f))) = ((1 : Int), wh :: (wt ++ '.' :: f)) := by
    split
    next rest heq =>
      rw [List.cons.injEq] at heq
      exact absurd heq.1 hf.2.2.2.2.1
    next rest heq =>
      rw [List.cons.injEq] at heq
      exact absurd heq.1 hf.2.2.2.2.2.1
    next => rfl
  have hbd := takeWhile_boundary Char.isDigit '.' f (by decide) (wh :: wt) hwdig
  have htw : List.takeWhile Char.isDigit (wh :: (wt ++ '.' :: f)) = wh :: wt := by
    rw [← List.cons_append]
    exact hbd.1
  have hdw : List.dropWhile Char.isDigit (wh :: (wt ++ '.' :: f)) = '.' :: f := by
    rw [← List.cons_append]
    exact hbd.2
  have htf := (takeWhile_all Char.isDigit f hfdig).1
  have hdf := (takeWhile_all Char.isDigit f hfdig).2
  have hpre : List.isPrefixOf ['I', 'n', 'f', 'i', 'n', 'i', 't', 'y']
      (wh :: (wt ++ '.' :: f)) = false := by
    show ('I' == wh && List.isPrefixOf ['n', 'f', 'i', 'n', 'i', 't', 'y']
      (wt ++ '.' :: f)) = false
    have hne : ('I' == wh) = false := by
      rw [beq_eq_false_iff_ne]
      exact fun h => hf.2.2.2.2.2.2.1 h.symm
    rw [hne, Bool.false_and]
  have hflen : (0 : Int) < f.length := by
    cases f with
    | nil => exact absurd rfl hfne
    | cons a l => simp
  simp only [List.cons_append, parseFloatDec, h1, h2, hpre, htw, hdw, htf, hdf,
    Bool.false_eq_true, if_false, List.isEmpty_cons, Bool.false_and, one_mul]
  rw [if_neg (by omega)]
  rw [Option.some_inj, Dec.mk.injEq]
  constructor
  · rw [← List.cons_append]
  · omega

theorem parse_digits_only_neg (w : List Char) (hwne : w ≠ [])
    (hwmem : ∀ c ∈ w, c ∈ ['0', '1', '2', '3', '4', '5', '6', '7', '8', '9']) :
    parseFloatDec ⟨'-' :: w⟩ = some ⟨-(digitsVal w : Int), 0⟩ := by
  obtain ⟨wh, wt, rfl⟩ : ∃ wh wt, w = wh :: wt := by
    cases w with
    | nil => exact absurd rfl hwne
    | cons a l => exact ⟨a, l, rfl⟩
  have hf := digitChar_facts wh (hwmem wh (List.mem_cons_self _ _))
  have hwdig : ∀ c ∈ wh :: wt, Char.isDigit c = true :=
    fun c hc => (digitChar_facts c (hwmem c hc)).1
  have h1 : List.dropWhile jsWhitespace ('-' :: wh :: wt) = '-' :: wh :: wt := by
    rw [List.dropWhile_cons, show jsWhitespace '-' = false from by decide]
    simp
  have htw := (takeWhile_all Char.isDigit (wh :: wt) hwdig).1
  have hdw := (takeWhile_all Char.isDigit (wh :: wt) hwdig).2
  have hpre : List.isPrefixOf ['I', 'n', 'f', 'i', 'n', 'i', 't', 'y'] (wh :: wt) = false := by
    show ('I' == wh && List.isPrefixOf ['n', 'f', 'i', 'n', 'i', 't', 'y'] wt) = false
    have hne : ('I' == wh) = false := by
      rw [beq_eq_false_iff_ne]
      exact fun h => hf.2.2.2.2.2.2.1 h.symm
    rw [hne, Bool.false_and]
  simp only [parseFloatDec, h1, hpre, htw, hdw, Bool.false_eq_true, if_false,
    List.isEmpty_cons, List.isEmpty_nil, Bool.false_and, Bool.and_false,
    List.append_nil, pow_zero, mul_one]
  norm_num

theorem parse_digits_frac_neg (w f : List Char) (hwne : w ≠ []) (hfne : f ≠ [])
    (hwmem : ∀ c ∈ w, c ∈ ['0', '1', '2', '3', '4', '5', '6', '7', '8', '9'])
    (hfmem : ∀ c ∈ f, c ∈ ['0', '1', '2', '3', '4', '5', '6', '7', '8', '9']) :
    parseFloatDec ⟨'-' :: (w ++ '.' :: f)⟩ = some ⟨-(digitsVal (w ++ f) : Int), f.length⟩ := by
  obtain ⟨wh, wt, rfl⟩ : ∃ wh wt, w = wh :: wt := by
    cases w with
    | nil => exact absurd rfl hwne
    | cons a l => exact ⟨a, l, rfl⟩
  have hf := digitChar_facts wh (hwmem wh (List.mem_cons_self _ _))
  have hwdig : ∀ c ∈ wh :: wt, Char.isDigit c = true :=
    fun c hc => (digitChar_facts c (hwmem c hc)).1
  have hfdig : ∀ c ∈ f, Char.isDigit c = true :=
    fun c hc => (digitChar_facts c (hfmem c hc)).1
  have h1 : List.dropWhile jsWhitespace ('-' :: wh :: (wt ++ '.' :: f))
      = '-' :: wh :: (wt ++ '.' :: f) := by
    rw [List.dropWhile_cons, show jsWhitespace '-' = false from by decide]
    simp
  have hbd := takeWhile_boundary Char.isDigit '.' f (by decide) (wh :: wt) hwdig
  have htw : List.takeWhile Char.isDigit (wh :: (wt ++ '.' :: f)) = wh :: wt := by
    rw [← List.cons_append]
    exact hbd.1
  have hdw : List.dropWhile Char.isDigit (wh :: (wt ++ '.' :: f)) = '.' :: f := by
    rw [← List.cons_append]
    exact hbd.2
  have htf := (takeWhile_all Char.isDigit f hfdig).1
  have hdf := (takeWhile_all Char.isDigit f hfdig).2
  have hpre : List.isPrefixOf ['I', 'n', 'f', 'i', 'n', 'i', 't', 'y']
      (wh :: (wt ++ '.' :: f)) = false := by
    show ('I' == wh && List.isPrefixOf ['n', 'f', 'i', 'n', 'i', 't', 'y']
      (wt ++ '.' :: f)) = false
    have hne : ('I' == wh) = false := by
      rw [beq_eq_false_iff_ne]
      exact fun h => hf.2.2.2.2.2.2.1 h.symm
    rw [hne, Bool.false_and]
  have hflen : (0 : Int) < f.length := by
    cases f with
    | nil => exact absurd rfl hfne
    | cons a l => simp
  simp only [List.cons_append, parseFloatDec, h1, hpre, htw, hdw, htf, hdf,
    Bool.false_eq_true, if_false, List.isEmpty_cons, Bool.false_and]
  rw [if_neg (by omega)]
  rw [Option.some_inj, Dec.mk.injEq]
  constructor
  · rw [← List.cons_append]
    ring
  · omega

/-- The decimal rendering of a canonical mantissa/exponent pair reparses to
exactly that pair. -/
theorem parseFloatDec_renderCanon (m : Int) (e : Nat) :
    parseFloatDec ⟨renderCanon m e⟩ = some ⟨m, e⟩ := by
  have hdsne : natToDigits m.natAbs ≠ [] := natToDigitsAux_ne_nil _ _ [] (by omega)
  set ds := natToDigits m.natAbs with hds
  set k := e + 1 - ds.length with hk
  set ds2 := List.replicate k '0' ++ ds with hds2
  have hdspos : 0 < ds.length := List.length_pos.mpr hdsne
  have hmem2 : ∀ c ∈ ds2, c ∈ ['0', '1', '2', '3', '4', '5', '6', '7', '8', '9'] := by
    intro c hc
    rcases List.mem_append.mp hc with h | h
    · rw [List.eq_of_mem_replicate h]
      decide
    · exact natToDigits_mem m.natAbs c h
  have hlen2 : e + 1 ≤ ds2.length := by
    rw [hds2, List.length_append, List.length_replicate]
    omega
  set w := ds2.take (ds2.length - e) with hw
  set f := ds2.drop (ds2.length - e) with hf
  have hwf : w ++ f = ds2 := List.take_append_drop _ _
  have hwlen : w.length = ds2.length - e := by
    rw [hw, List.length_take]
    omega
  have hflen : f.length = e := by
    rw [hf, List.length_drop]
    omega
  have hwne : w ≠ [] := by
    intro hnil
    rw [hnil] at hwlen
    simp at hwlen
    omega
  have hwmem : ∀ c ∈ w, c ∈ ['0', '1', '2', '3', '4', '5', '6', '7', '8', '9'] :=
    fun c hc => hmem2 c (by rw [← hwf]; exact List.mem_append_left _ hc)
  have hfmem : ∀ c ∈ f, c ∈ ['0', '1', '2', '3', '4', '5', '6', '7', '8', '9'] :=
    fun c hc => hmem2 c (by rw [← hwf]; exact List.mem_append_right _ hc)
  have hvalN : digitsVal (w ++ f) = m.natAbs := by
    rw [hwf, hds2, hds, digitsVal_replicate_zero, digitsVal_natToDigits]
  have hrender : renderCanon m e =
      if m < 0 then '-' :: (if e = 0 then w else w ++ '.' :: f)
      else (if e = 0 then w else w ++ '.' :: f) := rfl
  rw [hrender]
  by_cases hm : m < 0 <;> by_cases he : e = 0
  · subst he
    have hfnil : f = [] := List.eq_nil_of_length_eq_zero (by omega)
    rw [if_pos hm, if_pos rfl, parse_digits_only_neg w hwne hwmem,
      Option.some_inj, Dec.mk.injEq]
    have : digitsVal w = m.natAbs := by
      rw [← hvalN, hfnil, List.append_nil]
    rw [this]
    exact ⟨by omega, rfl⟩
  · have hfne : f ≠ [] := by
      intro hnil
      rw [hnil] at hflen
      simp at hflen
      omega
    rw [if_pos hm, if_neg he, parse_digits_frac_neg w f hwne hfne hwmem hfmem,
      Option.some_inj, Dec.mk.injEq, hvalN, hflen]
    exact ⟨by omega, rfl⟩
  · subst he
    have hfnil : f = [] := List.eq_nil_of_length_eq_zero (by omega)
    rw [if_neg hm, if_pos rfl, parse_digits_only w hwne hwmem,
      Option.some_inj, Dec.mk.injEq]
    have : digitsVal w = m.natAbs := by
      rw [← hvalN, hfnil, List.append_nil]
    rw [this]
    exact ⟨by omega, rfl⟩
  · have hfne : f ≠ [] := by
      intro hnil
      rw [hnil] at hflen
      simp at hflen
      omega
    rw [if_neg hm, if_neg he, parse_digits_frac w f hwne hfne hwmem hfmem,
      Option.some_inj, Dec.mk.injEq, hvalN, hflen]
    exact ⟨by omega, rfl⟩

/-- Widening digit membership to the renderer's alphabet. -/
theorem digit_mem_widen (c : Char)
    (h : c ∈ ['0', '1', '2', '3', '4', '5', '6', '7', '8', '9']) :
    c ∈ ['0', '1', '2', '3', '4', '5', '6', '7', '8', '9', '.', '-'] := by
  fin_cases h <;> decide

/-- Every character of the renderer's alphabet is neither whitespace nor a
comma. -/
theorem renderChar_facts (c : Char)
    (h : c ∈ ['0', '1', '2', '3', '4', '5', '6', '7', '8', '9', '.', '-']) :
    jsWhitespace c = false ∧ c ≠ ',' := by
  fin_cases h <;> exact ⟨by decide, by decide⟩

/-- The renderer only emits digits, the point and the minus sign. -/
theorem renderCanon_chars (m : Int) (e : Nat) :
    ∀ c ∈ renderCanon m e, c ∈ ['0', '1', '2', '3', '4', '5', '6', '7', '8', '9', '.', '-'] := by
  intro c hc
  have hmem2 : ∀ x ∈ List.replicate (e + 1 - (natToDigits m.natAbs).length) '0' ++
      natToDigits m.natAbs, x ∈ ['0', '1', '2', '3', '4', '5', '6', '7', '8', '9'] := by
    intro x hx
    rcases List.mem_append.mp hx with h | h
    · rw [List.eq_of_mem_replicate h]
      decide
    · exact natToDigits_mem m.natAbs x h
  have hbody : ∀ x, x ∈ (if e = 0 then
        (List.replicate (e + 1 - (natToDigits m.natAbs).length) '0' ++ natToDigits m.natAbs).take
          ((List.replicate (e + 1 - (natToDigits m.natAbs).length) '0' ++ natToDigits m.natAbs).length - e)
      else
        (List.replicate (e + 1 - (natToDigits m.natAbs).length) '0' ++ natToDigits m.natAbs).take
          ((List.replicate (e + 1 - (natToDigits m.natAbs).length) '0' ++ natToDigits m.natAbs).length - e) ++
        '.' :: (List.replicate (e + 1 - (natToDigits m.natAbs).length) '0' ++ natToDigits m.natAbs).drop
          ((List.replicate (e + 1 - (natToDigits m.natAbs).length) '0' ++ natToDigits m.natAbs).length - e)) →
      x ∈ ['0', '1', '2', '3', '4', '5', '6', '7', '8', '9', '.', '-'] := by
    intro x hx
    split at hx
    · exact digit_mem_widen x (hmem2 x (List.mem_of_mem_take hx))
    · rcases List.mem_append.mp hx with h | h
      · exact digit_mem_widen x (hmem2 x (List.mem_of_mem_take h))
      · rcases List.mem_cons.mp h with rfl | h'
        · decide
        · exact digit_mem_widen x (hmem2 x (List.mem_of_mem_drop h'))
  have hrc : renderCanon m e = if m < 0 then
      '-' :: (if e = 0 then
        (List.replicate (e + 1 - (natToDigits m.natAbs).length) '0' ++ natToDigits m.natAbs).take
          ((List.replicate (e + 1 - (natToDigits m.natAbs).length) '0' ++ natToDigits m.natAbs).length - e)
      else
        (List.replicate (e + 1 - (natToDigits m.natAbs).length) '0' ++ natToDigits m.natAbs).take
          ((List.replicate (e + 1 - (natToDigits m.natAbs).length) '0' ++ natToDigits m.natAbs).length - e) ++
        '.' :: (List.replicate (e + 1 - (natToDigits m.natAbs).length) '0' ++ natToDigits m.natAbs).drop
          ((List.replicate (e + 1 - (natToDigits m.natAbs).length) '0' ++ natToDigits m.natAbs).length - e))
    else (if e = 0 then
        (List.replicate (e + 1 - (natToDigits m.natAbs).length) '0' ++ natToDigits m.natAbs).take
          ((List.replicate (e + 1 - (natToDigits m.natAbs).length) '0' ++ natToDigits m.natAbs).length - e)
      else
        (List.replicate (e + 1 - (natToDigits m.natAbs).length) '0' ++ natToDigits m.natAbs).take
          ((List.replicate (e + 1 - (natToDigits m.natAbs).length) '0' ++ natToDigits m.natAbs).length - e) ++
        '.' :: (List.replicate (e + 1 - (natToDigits m.natAbs).length) '0' ++ natToDigits m.natAbs).drop
          ((List.replicate (e + 1 - (natToDigits m.natAbs).length) '0' ++ natToDigits m.natAbs).length - e)) := rfl
  rw [hrc] at hc
  split at hc
  · rcases List.mem_cons.mp hc with rfl | h'
    · decide
    · exact hbody c h'
  · exact hbody c hc

/-- A list all of whose members differ from a character does not contain
it. -/
theorem not_contains_of_forall_ne (l : List Char) (ch : Char)
    (h : ∀ x ∈ l, x ≠ ch) : l.contains ch = false := by
  cases hcc : l.contains ch
  · rfl
  · exact absurd rfl (h ch (List.mem_of_elem_eq_true hcc))

/-- Re-normalizing the rendering of a normalized price under a
non-Turkish hint returns the canonical form of the same number. -/
theorem normalize_render_roundtrip (n : Dec) (C : String) (hC : C ≠ "TRY") :
    normalizePriceString (renderDec n) C = some n.canon := by
  have hchars := renderCanon_chars n.canon.num n.canon.exp
  have hparse := parseFloatDec_renderCanon n.canon.num n.canon.exp
  have hfilter : (renderDec n).data.filter (fun ch => !jsWhitespace ch)
      = renderCanon n.canon.num n.canon.exp := by
    show (renderCanon n.canon.num n.canon.exp).filter (fun ch => !jsWhitespace ch)
      = renderCanon n.canon.num n.canon.exp
    apply List.filter_eq_self.mpr
    intro a ha
    rw [(renderChar_facts a (hchars a ha)).1]
    rfl
  have hLne : (renderCanon n.canon.num n.canon.exp).isEmpty = false := by
    cases hh : renderCanon n.canon.num n.canon.exp with
    | nil =>
      rw [hh] at hparse
      have hnone : parseFloatDec ⟨([] : List Char)⟩ = none := by decide
      rw [hnone] at hparse
      cases hparse
    | cons a l => rfl
  have hnocomma : (renderCanon n.canon.num n.canon.exp).contains ',' = false :=
    not_contains_of_forall_ne _ ','
      (fun x hx => (renderChar_facts x (hchars x hx)).2)
  have hTRY : decide (C = "TRY") = false := decide_eq_false hC
  simp only [normalizePriceString, hfilter, hLne, Bool.false_eq_true, if_false,
    hnocomma, Bool.and_false, hTRY, Bool.false_and, if_true]
  by_cases hdot : (renderCanon n.canon.num n.canon.exp).contains '.' = true
  · simp only [hdot, if_true, hparse]
  · simp only [hdot, Bool.false_eq_true, if_false, hparse]

/-- C6 (amended): re-normalizing the decimal rendering of a normalized
price returns the same numeric value whenever the currency hint is not
Turkish-like: the reparse yields exactly the canonical form of the first
result, which is value-equal to it.  (Under the TRY hint the roundtrip can
change the value, so the hypothesis is necessary.) -/
theorem c6_normalize_idempotent (S C : String) (n : Dec) (hC : C ≠ "TRY")
    (h : normalizePriceString S C = some n) :
    normalizePriceString (renderDec n) C = some n.canon ∧
    Dec.veq n.canon n = true :=
  ⟨normalize_render_roundtrip n C hC, canon_veq n⟩

/-- C6 counterexample: with the TRY hint, "1,299" normalizes to the number
1.299, which renders as "1.299"; renormalizing that rendering under the
same hint strips the dot as a thousands separator and yields 1299 — a
different value, refuting idempotence. -/
theorem c6_counterexample :
    normalizePriceString "1,299" "TRY" = some ⟨1299, 3⟩ ∧
    renderDec ⟨1299, 3⟩ = "1.299" ∧
    normalizePriceString "1.299" "TRY" = some ⟨1299, 0⟩ ∧
    Dec.veq ⟨1299, 0⟩ ⟨1299, 3⟩ = false := by
  decide

/-- A concrete non-Turkish roundtrip: "12.5" under USD normalizes to 12.5,
whose rendering renormalizes to the same canonical value. -/
theorem c6_normalize_idempotent_witness :
    ("USD" : String) ≠ "TRY" ∧
    normalizePriceString "12.5" "USD" = some ⟨125, 1⟩ ∧
    (normalizePriceString (renderDec ⟨125, 1⟩) "USD" = some (Dec.canon ⟨125, 1⟩) ∧
      Dec.veq (Dec.canon ⟨125, 1⟩) ⟨125, 1⟩ = true) :=
  ⟨by decide, by decide,
   c6_normalize_idempotent "12.5" "USD" ⟨125, 1⟩ (by decide) (by decide)⟩
